import Mathlib

/-!
# Verification of the subtool subfile engine specification

A shallow embedding of the core of subtool, the MWA sub-observation file
manipulation toolkit, together with proofs settling the frozen claims about
its specification.

Modelling conventions:
* Byte buffers (JS ArrayBuffer / Buffer / typed arrays viewed bytewise) are
  `List Nat` with every element below 256.
* JS numbers are modelled as exact rationals (`ℚ`); IEEE-754 bit patterns are
  decoded exactly, and encoding is exact on representable values (claims are
  never decided on rounded arithmetic).
* The source's Result record ({status, reason, location, value}) is the
  inductive `Res`; a thrown JS exception (RangeError on an out-of-bounds
  DataView access, a property access on undefined) is the `crash`
  constructor, which propagates through callers like an exception.
  Location breadcrumb lists are dropped from error values (no claim
  depends on them).
-/

namespace Subtool

/-- Outcome of a fallible operation: the source's Result discriminated union
plus a `crash` constructor for uncaught JS exceptions. -/
inductive Res (α : Type) where
  | ok (value : α)
  | err (reason : String)
  | crash (msg : String)
deriving DecidableEq, Repr

namespace Res

def bind {α β : Type} : Res α → (α → Res β) → Res β
  | ok v, f => f v
  | err r, _ => err r
  | crash m, _ => crash m

def isOk {α : Type} : Res α → Bool
  | ok _ => true
  | _ => false

end Res

/-- Sequence a list of results, stopping at the first failure (the source's
`all` combinator; the location breadcrumb it would add is dropped). -/
def allRes {α : Type} : List (Res α) → Res (List α)
  | [] => .ok []
  | r :: rs =>
    r.bind fun v => (allRes rs).bind fun vs => .ok (v :: vs)

/-- Lift a partial read to `Res`: a missing value is a thrown RangeError. -/
def orCrash {α : Type} : Option α → Res α
  | some v => .ok v
  | none => .crash "RangeError"

/-! ## Little-endian byte-level primitives (DataView semantics) -/

/-- Interpret a byte list as an unsigned little-endian integer. -/
def bytesToNatLE (bs : List Nat) : Nat :=
  bs.foldr (fun b acc => b + 256 * acc) 0

/-- Produce exactly `len` little-endian bytes of `n` (low bytes first). -/
def natToBytesLE : Nat → Nat → List Nat
  | 0, _ => []
  | len + 1, n => n % 256 :: natToBytesLE len (n / 256)

/-- Reinterpret an unsigned `bits`-bit value as twos-complement signed. -/
def toSigned (bits n : Nat) : Int :=
  if n < 2 ^ (bits - 1) then (n : Int) else (n : Int) - 2 ^ bits

/-- A DataView slice: `len` bytes at byte offset `off`, or `none` when the
range leaves the buffer (JS throws a RangeError there). -/
def dvBytes (buf : List Nat) (off len : Nat) : Option (List Nat) :=
  if off + len ≤ buf.length then some ((buf.drop off).take len) else none

def getUint16 (buf : List Nat) (off : Nat) : Option Nat :=
  (dvBytes buf off 2).map bytesToNatLE

def getInt16 (buf : List Nat) (off : Nat) : Option Int :=
  (dvBytes buf off 2).map (fun bs => toSigned 16 (bytesToNatLE bs))

def getInt32 (buf : List Nat) (off : Nat) : Option Int :=
  (dvBytes buf off 4).map (fun bs => toSigned 32 (bytesToNatLE bs))

/-- Truncate a JS number toward zero (the ToIntegerOrInfinity step of the
typed-array stores). -/
def ratTrunc (q : ℚ) : Int :=
  if 0 ≤ q then ⌊q⌋ else ⌈q⌉

/-- JS typed-array store conversion: truncate toward zero, wrap modulo
`2 ^ width`, as an unsigned value. -/
def jsToUint (width : Nat) (q : ℚ) : Nat :=
  ((ratTrunc q).emod (2 ^ width)).toNat

def setUint16 (q : ℚ) : List Nat := natToBytesLE 2 (jsToUint 16 q)
def setInt16 (q : ℚ) : List Nat := natToBytesLE 2 (jsToUint 16 q)
def setInt32 (q : ℚ) : List Nat := natToBytesLE 4 (jsToUint 32 q)

/-! ## IEEE-754 codec (exact)

`decodeBitsF mb eb` decodes a float with `mb` mantissa bits and `eb` exponent
bits to its exact rational value (`none` for NaN and the infinities).
`encodeF mb eb` is its exact right inverse on representable rationals; on a
rational that is not exactly representable it falls back to the zero pattern
(claims only ever evaluate it on representable values, which the
round-trip hypotheses state explicitly). -/

/-- `2 ^ z` over ℚ for an integer exponent, computed through `Nat.pow` so
that concrete decodings evaluate quickly. -/
def pow2z : Int → ℚ
  | Int.ofNat n => ((2 ^ n : Nat) : ℚ)
  | Int.negSucc n => (1 : ℚ) / ((2 ^ (n + 1) : Nat) : ℚ)

def decodeBitsF (mb eb bits : Nat) : Option ℚ :=
  let man := bits % 2 ^ mb
  let expv := bits / 2 ^ mb % 2 ^ eb
  let sgn := bits / 2 ^ (mb + eb) % 2
  let bias : Int := 2 ^ (eb - 1) - 1
  if expv = 2 ^ eb - 1 then none
  else
    let mag : ℚ :=
      if expv = 0 then (man : ℚ) * pow2z (1 - bias - mb)
      else ((2 ^ mb + man : Nat) : ℚ) * pow2z ((expv : Int) - bias - mb)
    some (if sgn = 1 then -mag else mag)

/-- Fuel-driven base-2 logarithm (structurally recursive so that concrete
float encodings evaluate inside `decide`). -/
def log2fuel : Nat → Nat → Nat
  | 0, _ => 0
  | f + 1, n => if 2 ≤ n then log2fuel f (n / 2) + 1 else 0

def natLog2 (n : Nat) : Nat := log2fuel n n

def encodeF (mb eb : Nat) (q : ℚ) : Nat :=
  if q = 0 then 0 else
  let s : Nat := if q < 0 then 1 else 0
  let a := |q|
  let n := a.num.toNat
  let d := a.den
  let k := natLog2 d
  if 2 ^ k ≠ d then 0 else
  let bl := natLog2 n + 1
  let bias : Int := 2 ^ (eb - 1) - 1
  let e : Int := (bl : Int) - 1 - k
  if e > bias then 0
  else if 1 - bias ≤ e then
    -- normal range: need the full significand in mb+1 bits
    if bl ≤ mb + 1 then
      let m := n * 2 ^ (mb + 1 - bl)
      s * 2 ^ (mb + eb) + (e + bias).toNat * 2 ^ mb + (m - 2 ^ mb)
    else
      let sh := bl - (mb + 1)
      if n % 2 ^ sh = 0 then
        let m := n / 2 ^ sh
        s * 2 ^ (mb + eb) + (e + bias).toNat * 2 ^ mb + (m - 2 ^ mb)
      else 0
  else
    -- subnormal range: value = f * 2^(1 - bias - mb)
    let sh : Int := (mb : Int) + bias - 1 - k
    if 0 ≤ sh then
      let f := n * 2 ^ sh.toNat
      if f < 2 ^ mb then s * 2 ^ (mb + eb) + f else 0
    else
      if n % 2 ^ (-sh).toNat = 0 then
        let f := n / 2 ^ (-sh).toNat
        if f < 2 ^ mb then s * 2 ^ (mb + eb) + f else 0
      else 0

def encodeF64 (q : ℚ) : List Nat := natToBytesLE 8 (encodeF 52 11 q)
def encodeF32 (q : ℚ) : List Nat := natToBytesLE 4 (encodeF 23 8 q)

/-- A rational is exactly representable as an IEEE binary64. -/
def f64_exact (q : ℚ) : Prop := decodeBitsF 52 11 (encodeF 52 11 q) = some q

/-- A rational is exactly representable as an IEEE binary32. -/
def f32_exact (q : ℚ) : Prop := decodeBitsF 23 8 (encodeF 23 8 q) = some q

instance (q : ℚ) : Decidable (f64_exact q) := by unfold f64_exact; infer_instance
instance (q : ℚ) : Decidable (f32_exact q) := by unfold f32_exact; infer_instance

/-- `DataView.getFloat64`: outer `none` is a RangeError, inner `none` a
non-finite value. -/
def getFloat64 (buf : List Nat) (off : Nat) : Option (Option ℚ) :=
  (dvBytes buf off 8).map (fun bs => decodeBitsF 52 11 (bytesToNatLE bs))

def getFloat32 (buf : List Nat) (off : Nat) : Option (Option ℚ) :=
  (dvBytes buf off 4).map (fun bs => decodeBitsF 23 8 (bytesToNatLE bs))

/-- The JS comparison `abs(a - b) < eps` on two possibly non-finite numbers:
any NaN or infinity operand makes it false. Subtraction is exact here where
JS would round; no claim is decided within rounding distance of a bound. -/
def jsAbsLt (a b : Option ℚ) (eps : ℚ) : Bool :=
  match a, b with
  | some x, some y => |x - y| < eps
  | _, _ => false

/-- The JS range test `lo ≤ v && v ≤ hi`; false on non-finite values. -/
def jsInRange (v : Option ℚ) (lo hi : ℚ) : Bool :=
  match v with
  | some x => lo ≤ x ∧ x ≤ hi
  | none => false

/-- Value of a possibly non-finite read when stored into a number field.
Non-finite patterns are modelled as 0; no claim evaluates this case. -/
def fltVal (o : Option ℚ) : ℚ := o.getD 0

/-! ## Delay-table data model (src/dtv2.ts) -/

/-- In-memory delay-table row (`DelayTableV2Entry`). All JS-number fields are
exact rationals; `frac_delay` models the `Float32Array`, whose elements are
binary32-representable values. -/
structure DelayTableV2Entry where
  rf_input : ℚ
  ws_delay : ℚ
  initial_delay : ℚ
  delta_delay : ℚ
  delta_delta_delay : ℚ
  start_total_delay : ℚ
  middle_total_delay : ℚ
  end_total_delay : ℚ
  num_pointings : ℚ
  _reserved : ℚ
  frac_delay : List ℚ
deriving DecidableEq, Repr

structure DelayTableV2 where
  format_version : Nat
  num_fracs : Nat
  entries : List DelayTableV2Entry
deriving DecidableEq, Repr

/-! ### Binary serialisation -/

/-- The fixed 18-byte prefix of a v1 row (as written by
`serialise_delay_table_entry_binary_v1`: fixed fields occupy bytes 0..17,
the int16 millisample fractional delays start at byte 18, and the
remainder of the view keeps the zero fill of the fresh ArrayBuffer). -/
def v1_fixed (entry : DelayTableV2Entry) : List Nat :=
  setUint16 entry.rf_input ++ setInt16 entry.ws_delay ++
  setInt32 entry.initial_delay ++ setInt32 entry.delta_delay ++
  setInt32 entry.delta_delta_delay ++ setUint16 entry.num_pointings

def v1_row_bytes (entry : DelayTableV2Entry) (viewLen : Nat) : List Nat :=
  v1_fixed entry ++
  ((entry.frac_delay.map (fun x => setInt16 (x * 1000))).flatten ++
   List.replicate (viewLen - (18 + 2 * entry.frac_delay.length)) 0)

def serialise_delay_table_entry_binary_v1 (entry : DelayTableV2Entry)
    (viewLen : Nat) : Res (List Nat) :=
  if viewLen < 20 + 2 * entry.frac_delay.length then
    .err "Buffer too small for delay table entry."
  else
    .ok (v1_row_bytes entry viewLen)

/-- The fixed 56-byte prefix of a v2 row (as written by
`serialise_delay_table_entry_binary_v2`: fixed fields at bytes 0..55,
float32 fractional delays from byte 56). -/
def v2_fixed (entry : DelayTableV2Entry) : List Nat :=
  setUint16 entry.rf_input ++ setInt16 entry.ws_delay ++
  encodeF64 entry.initial_delay ++ encodeF64 entry.delta_delay ++
  encodeF64 entry.delta_delta_delay ++ encodeF64 entry.start_total_delay ++
  encodeF64 entry.middle_total_delay ++ encodeF64 entry.end_total_delay ++
  setUint16 entry.num_pointings ++ setUint16 entry._reserved

def v2_row_bytes (entry : DelayTableV2Entry) (viewLen : Nat) : List Nat :=
  v2_fixed entry ++
  ((entry.frac_delay.map encodeF32).flatten ++
   List.replicate (viewLen - (56 + 4 * entry.frac_delay.length)) 0)

def serialise_delay_table_entry_binary_v2 (entry : DelayTableV2Entry)
    (viewLen : Nat) : Res (List Nat) :=
  if viewLen < 56 + 4 * entry.frac_delay.length then
    .err "Buffer too small for delay table entry."
  else
    .ok (v2_row_bytes entry viewLen)

/-- `serialise_delay_table`: one row of `row_length` bytes per entry. The
per-row error message detail (row index) is dropped. -/
def serialise_delay_table (table : DelayTableV2) (force_version : Int := -1) :
    Res (List Nat) :=
  let version := if force_version > 0 then force_version.toNat else table.format_version
  let row_length := if version = 1 then 20 + 2 * table.num_fracs
                    else 56 + 4 * table.num_fracs
  let serialise_entry := if version = 1 then serialise_delay_table_entry_binary_v1
                         else serialise_delay_table_entry_binary_v2
  (allRes (table.entries.map (fun e => serialise_entry e row_length))).bind
    fun rows => .ok rows.flatten

/-! ### Binary parsing -/

/-- `parse_delay_table_entry_binary_v1`. The row view has already been carved
out of the buffer; reads inside it that leave the view crash (RangeError).
The source computes `num_fracs = (byteLength - 20) / 2` in float arithmetic;
rows reaching this parser always have even length at least 20, where Nat
division agrees. Fractional delays are read from byte `18 + 2 * i` and
scaled by 1/1000 (the float32 store rounding is modelled as exact). -/
def parse_delay_table_entry_binary_v1 (row : List Nat) : Res DelayTableV2Entry :=
  let num_fracs := (row.length - 20) / 2
  (orCrash (getUint16 row 0)).bind fun rf =>
  (orCrash (getInt16 row 2)).bind fun ws =>
  (orCrash (getInt32 row 4)).bind fun init =>
  (orCrash (getInt32 row 8)).bind fun delta =>
  (orCrash (getInt32 row 12)).bind fun dd =>
  (orCrash (getInt16 row 16)).bind fun np =>
  -- Float32Array(x) throws for a negative or fractional length x
  (if row.length < 20 ∨ (row.length - 20) % 2 ≠ 0 then
    (Res.crash "RangeError" : Res Unit)
   else Res.ok ()).bind fun _ =>
  (allRes ((List.range num_fracs).map
      (fun i => (orCrash (getInt16 row (18 + 2 * i))).bind
        fun v => .ok ((v : ℚ) / 1000)))).bind fun fracs =>
  .ok { rf_input := rf, ws_delay := ws, initial_delay := init,
        delta_delay := delta, delta_delta_delay := dd,
        start_total_delay := 0, middle_total_delay := 0, end_total_delay := 0,
        num_pointings := np, _reserved := 0, frac_delay := fracs }

/-- `parse_delay_table_entry_binary_v2`. -/
def parse_delay_table_entry_binary_v2 (row : List Nat) : Res DelayTableV2Entry :=
  if row.length < 56 then .err "Binary delay table entry is too short."
  else
  let num_fracs := (row.length - 56) / 4
  (orCrash (getUint16 row 0)).bind fun rf =>
  (orCrash (getInt16 row 2)).bind fun ws =>
  (orCrash (getFloat64 row 4)).bind fun init =>
  (orCrash (getFloat64 row 12)).bind fun delta =>
  (orCrash (getFloat64 row 20)).bind fun dd =>
  (orCrash (getFloat64 row 28)).bind fun start =>
  (orCrash (getFloat64 row 36)).bind fun mid =>
  (orCrash (getFloat64 row 44)).bind fun fin =>
  (orCrash (getUint16 row 52)).bind fun np =>
  (orCrash (getUint16 row 54)).bind fun resv =>
  -- Float32Array(x) throws for a fractional length x
  (if (row.length - 56) % 4 ≠ 0 then (Res.crash "RangeError" : Res Unit)
   else Res.ok ()).bind fun _ =>
  (allRes ((List.range num_fracs).map
      (fun i => (orCrash (getFloat32 row (56 + 4 * i))).bind
        fun v => .ok (fltVal v)))).bind fun fracs =>
  .ok { rf_input := rf, ws_delay := ws, initial_delay := fltVal init,
        delta_delay := fltVal delta, delta_delta_delay := fltVal dd,
        start_total_delay := fltVal start, middle_total_delay := fltVal mid,
        end_total_delay := fltVal fin,
        num_pointings := np, _reserved := resv, frac_delay := fracs }

/-! ### Binary format detection -/

/-- `is_plausible_binary_v1`: integer reads only. -/
def is_plausible_binary_v1 (buf : List Nat) : Res Bool :=
  (orCrash (getInt32 buf 4)).bind fun initialDelay =>
  (orCrash (getUint16 buf 16)).bind fun numPointings =>
  (orCrash (getInt16 buf 18)).bind fun firstFrac =>
  .ok (numPointings = 1 ∧ |(initialDelay : ℚ) - firstFrac| < 1 / 10000 ∧
       |firstFrac| ≤ 2000 ∧ ((initialDelay = 0) = (firstFrac = 0)) : Bool)

/-- `is_plausible_binary_v2`. -/
def is_plausible_binary_v2 (buf : List Nat) : Res Bool :=
  (orCrash (getFloat64 buf 4)).bind fun initialDelay =>
  (orCrash (getFloat64 buf 28)).bind fun startDelay =>
  (orCrash (getUint16 buf 52)).bind fun numPointings =>
  (orCrash (getUint16 buf 54)).bind fun reserved =>
  (orCrash (getFloat32 buf 56)).bind fun firstFrac =>
  .ok (numPointings = 1 ∧ reserved = 0 ∧
       jsAbsLt initialDelay startDelay (1 / 10000) ∧
       jsAbsLt initialDelay firstFrac (1 / 10000) : Bool)

/-- `detect_binary_version`: both plausibility tests run before the verdict,
so a RangeError in either one escapes. -/
def detect_binary_version (buf : List Nat) : Res Nat :=
  (is_plausible_binary_v1 buf).bind fun p1 =>
  (is_plausible_binary_v2 buf).bind fun p2 =>
  if p1 ∧ p2 then
    .err "Failed to detect delay table binary version: ambiguous structure."
  else if p1 then .ok 1
  else if p2 then .ok 2
  else .err "Failed to detect delay table binary version: did not match any known structure."

/-- Per-row validity loop of `is_viable_binary_structure`: for each row,
`num_pointings` (at `np_offset` into the row) must be 1, the reserved
position (at `resv` into the row) must be 0, and every fractional delay must
lie in the version range. `resv` is the already-resolved reserved offset: the
source computes `row_length - resv_offset` when `resv_offset` is negative,
which for v1 (`resv_offset = -2`) yields `row_length + 2` — past the end of
the row. Reads past the buffer crash (RangeError). -/
def viable_rows_check (buf : List Nat) (row_length : Nat) (frac_int16 : Bool)
    (frac_offset np_offset resv : Nat) (frac_count : Int) :
    (rows : List Nat) → Res Unit
  | [] => .ok ()
  | row :: rest =>
    let row_offset := row * row_length
    let frac_size := if frac_int16 then 2 else 4
    (orCrash (getUint16 buf (row_offset + np_offset))).bind fun np =>
    (orCrash (getUint16 buf (row_offset + resv))).bind fun rsv =>
    if np ≠ 1 ∨ rsv ≠ 0 then .err "" else
    (allRes ((List.range frac_count.toNat).map (fun frac_id =>
      let p := row_offset + frac_offset + frac_size * frac_id
      if frac_int16 then
        (orCrash (getInt16 buf p)).bind fun f =>
          if -2000 ≤ f ∧ f ≤ 2000 then .ok () else .err ""
      else
        (orCrash (getFloat32 buf p)).bind fun f =>
          if jsInRange f (-2) 2 then .ok () else .err ""))).bind fun _ =>
    viable_rows_check buf row_length frac_int16 frac_offset np_offset resv
      frac_count rest

/-- `is_viable_binary_structure`. A `row_count` of 0 fails (in the source,
`byteLength % 0` is NaN). The fractional-delay area may be negative, so it is
computed in `Int`; a negative divisible area yields a negative `frac_count`
and an empty fractional loop, exactly as in the source. -/
def is_viable_binary_structure (row_count : Nat) (frac_int16 : Bool)
    (frac_offset np_offset : Nat) (resv_offset : Int) (row_padding : Nat)
    (buf : List Nat) : Res Int :=
  if row_count = 0 then .err "" else
  if buf.length % row_count ≠ 0 then .err "" else
  let row_length := buf.length / row_count
  let frac_size : Int := if frac_int16 then 2 else 4
  let frac_area : Int := (row_length : Int) - row_padding - frac_offset
  if frac_area % frac_size ≠ 0 then .err "" else
  let frac_count := frac_area / frac_size
  let resv : Nat := if resv_offset < 0 then ((row_length : Int) - resv_offset).toNat
                    else resv_offset.toNat
  (viable_rows_check buf row_length frac_int16 frac_offset np_offset resv
      frac_count (List.range row_count)).bind fun _ =>
  .ok frac_count

/-- Candidate row-count loop of `infer_binary_structure`: try
`row_count = 0, 1, …` in order, returning the first viable structure; an
`err` moves on to the next candidate, a crash escapes. -/
def infer_try_rows (version : Nat) (frac_int16 : Bool)
    (frac_offset np_offset : Nat) (resv_offset : Int) (row_padding : Nat)
    (buf : List Nat) : (cands : List Nat) → Res (Nat × Nat × Int)
  | [] => .err "Failed to determine binary delay table structure."
  | rc :: rest =>
    match is_viable_binary_structure rc frac_int16 frac_offset np_offset
        resv_offset row_padding buf with
    | .ok fc => .ok (version, rc, fc)
    | .err _ => infer_try_rows version frac_int16 frac_offset np_offset
        resv_offset row_padding buf rest
    | .crash m => .crash m

/-- `infer_binary_structure`: detect the version, then scan candidate row
counts `0 ≤ row_count ≤ buf_length / (frac_offset + row_padding)`. -/
def infer_binary_structure (buf : List Nat) : Res (Nat × Nat × Int) :=
  (detect_binary_version buf).bind fun version =>
  let p : Bool × Nat × Nat × Int × Nat :=
    if version = 1 then (true, 18, 16, -2, 2) else (false, 56, 52, 54, 0)
  let (frac_int16, frac_offset, np_offset, resv_offset, row_padding) := p
  let max_rows := buf.length / (frac_offset + row_padding)
  infer_try_rows version frac_int16 frac_offset np_offset resv_offset
    row_padding buf (List.range (max_rows + 1))

/-- Row loop of `parse_delay_table_binary`: carve each row view out of the
buffer (a view that leaves the buffer is a RangeError) and parse it. -/
def parse_rows (buf : List Nat) (row_length : Nat)
    (parse_entry : List Nat → Res DelayTableV2Entry) :
    (idx : List Nat) → Res (List DelayTableV2Entry)
  | [] => .ok []
  | i :: rest =>
    (orCrash (dvBytes buf (i * row_length) row_length)).bind fun row =>
    (parse_entry row).bind fun entry =>
    (parse_rows buf row_length parse_entry rest).bind fun entries =>
    .ok (entry :: entries)

/-- `parse_delay_table_binary buf version row_count frac_count`. A `-1`
argument means "infer"; if any of the three is `-1` the whole structure is
inferred and checked against the supplied values. -/
def parse_delay_table_binary (buf : List Nat) (version : Int := -1)
    (row_count : Int := -1) (frac_count : Int := -1) : Res DelayTableV2 :=
  (if version = -1 ∨ row_count = -1 ∨ frac_count = -1 then
    (infer_binary_structure buf).bind fun ivc =>
    let (iv, irc, ifc) := ivc
    if version ≠ -1 ∧ version ≠ iv then
      .err "Delay table version specified disagrees with version detected."
    else if row_count ≠ -1 ∧ row_count ≠ irc then
      .err "Delay table row count specified disagrees with row count detected."
    else if frac_count ≠ -1 ∧ frac_count ≠ ifc then
      .err "Delay table fractional delay count specified disagrees with count detected."
    else .ok ((iv : Int), (irc : Int), ifc)
  else .ok (version, row_count, frac_count)).bind fun vrf =>
  let (v, rc, fc) := vrf
  let row_length : Int := if v = 1 then 20 + fc * 2 else 56 + fc * 4
  if row_length < 0 then .crash "RangeError" else
  (parse_rows buf row_length.toNat
      (if v = 1 then parse_delay_table_entry_binary_v1
       else parse_delay_table_entry_binary_v2)
      (List.range rc.toNat)).bind fun entries =>
  .ok { format_version := v.toNat, num_fracs := fc.toNat, entries := entries }

/-! ### CSV parsing -/

/-- Digit fold used by the string parsers (the strings have already been
checked to be all digits). -/
def parse_digits (s : String) : Nat :=
  s.toList.foldl (fun a c => 10 * a + (c.toNat - 48)) 0

/-- `parse_uint`: the whole string must match `\d+`. -/
def parse_uint (s : String) : Res ℚ :=
  if s ≠ "" ∧ s.toList.all Char.isDigit then .ok (parse_digits s)
  else .err "Failed to parse unsigned integer."

/-- `parse_int`: the whole string must match `-?\d+`. -/
def parse_int (s : String) : Res ℚ :=
  match s.toList with
  | '-' :: rest =>
    if rest ≠ [] ∧ rest.all Char.isDigit then
      .ok (-(parse_digits (String.mk rest) : ℚ))
    else .err "Failed to parse integer."
  | l =>
    if l ≠ [] ∧ l.all Char.isDigit then .ok (parse_digits s)
    else .err "Failed to parse integer."

/-- Split a character list at every occurrence of `c` (the String.split
semantics on a one-character separator, structurally). -/
def splitOnChar (c : Char) : List Char → List (List Char)
  | [] => [[]]
  | x :: xs =>
    match splitOnChar c xs with
    | [] => [[x]]
    | y :: ys => if x = c then [] :: y :: ys else (x :: y) :: ys

/-- `parse_float`: the whole string must match `-?\d+(\.\d+)?`. The decimal
value is modelled exactly (JS would round it to binary64). -/
def parse_float (s : String) : Res ℚ :=
  let core : List Char → Res ℚ := fun l =>
    match (splitOnChar '.' l).map String.mk with
    | [ip] =>
      if ip ≠ "" ∧ ip.toList.all Char.isDigit then .ok (parse_digits ip)
      else .err "Failed to parse float."
    | [ip, fp] =>
      if ip ≠ "" ∧ ip.toList.all Char.isDigit ∧
         fp ≠ "" ∧ fp.toList.all Char.isDigit then
        .ok ((parse_digits ip : ℚ) + (parse_digits fp : ℚ) / 10 ^ fp.length)
      else .err "Failed to parse float."
    | _ => .err "Failed to parse float."
  match s.toList with
  | '-' :: rest => (core rest).bind fun v => .ok (-v)
  | l => core l

/-- `apply_each`: apply the i-th parser to the i-th cell. A missing cell is
`undefined` in JS, on which the parsers throw (TypeError on `.match`). -/
def apply_each : List (String → Res ℚ) → List String → List (Res ℚ)
  | [], _ => []
  | _f :: fs, [] => .crash "TypeError" :: apply_each fs []
  | f :: fs, x :: xs => f x :: apply_each fs xs

/-- `parse_delay_table_entry_csv_v1`: 6 fixed columns then integer
millisample fractional delays, scaled by 1/1000 on load. -/
def parse_delay_table_entry_csv_v1 (row : List String) : Res DelayTableV2Entry :=
  (allRes (apply_each
      [parse_uint, parse_int, parse_int, parse_int, parse_int, parse_uint]
      (row.take 6) ++ (row.drop 6).map parse_float)).bind fun vals =>
  match vals with
  | rf :: ws :: init :: delta :: dd :: np :: fracs =>
    .ok { rf_input := rf, ws_delay := ws, initial_delay := init,
          delta_delay := delta, delta_delta_delay := dd,
          start_total_delay := 0, middle_total_delay := 0, end_total_delay := 0,
          num_pointings := np, _reserved := 0,
          frac_delay := fracs.map (fun x => x / 1000) }
  | _ => .crash "unreachable: apply_each yields six results"

/-- `parse_delay_table_entry_csv_v2`: 10 fixed columns then float sample
fractional delays. -/
def parse_delay_table_entry_csv_v2 (row : List String) : Res DelayTableV2Entry :=
  (allRes (apply_each
      [parse_uint, parse_int, parse_float, parse_float, parse_float,
       parse_float, parse_float, parse_float, parse_uint, parse_uint]
      (row.take 10) ++ (row.drop 10).map parse_float)).bind fun vals =>
  match vals with
  | rf :: ws :: init :: delta :: dd :: start :: mid :: fin :: np :: resv :: fracs =>
    .ok { rf_input := rf, ws_delay := ws, initial_delay := init,
          delta_delay := delta, delta_delta_delay := dd,
          start_total_delay := start, middle_total_delay := mid,
          end_total_delay := fin, num_pointings := np, _reserved := resv,
          frac_delay := fracs }
  | _ => .crash "unreachable: apply_each yields ten results"

/-- JS `trimEnd`. -/
def trimEnd (s : String) : String :=
  String.mk (s.toList.reverse.dropWhile Char.isWhitespace).reverse

/-- Split on LF or CRLF (`/\r?\n/`). Applied after `trimEnd`, so stripping
one trailing CR from each LF-delimited segment matches the regex split. -/
def split_lines (s : String) : List String :=
  (splitOnChar '\n' s.toList).map (fun l =>
    if l.getLast? = some '\r' then String.mk l.dropLast else String.mk l)

/-- `parse_csv` (the UTF-8 decode of the buffer is elided: the input is
already a string). -/
def parse_csv (s : String) : List (List String) :=
  (split_lines (trimEnd s)).map
    (fun line => (splitOnChar ',' line.toList).map String.mk)

/-- `is_rectangular`: `-1` when all rows have the first row's length,
otherwise the index of the first offending row. -/
def is_rectangular (xss : List (List String)) : Int :=
  match xss with
  | [] => -1
  | xs :: _ =>
    match xss.findIdx? (fun row => row.length ≠ xs.length) with
    | some i => (i : Int)
    | none => -1

/-- `detect_csv_version`: all-ones in column 5 means v1, else all-ones in
column 8 means v2, else failure. A missing cell is `undefined`, which is
not equal to the string "1". -/
def detect_csv_version (csv : List (List String)) : Res Nat :=
  if csv.all (fun row => row.get? 5 = some "1") then .ok 1
  else if csv.all (fun row => row.get? 8 = some "1") then .ok 2
  else .err "Bad CSV file: unable to detect version - could not find a num_pointings column containing all ones."

/-- `parse_delay_table_csv`. The table's `num_fracs` is read from the entry
at index 1; with fewer than two rows that access throws. -/
def parse_delay_table_csv (s : String) : Res DelayTableV2 :=
  let csv := parse_csv s
  let first_bad_row := is_rectangular csv
  if first_bad_row > -1 then
    .err "Bad CSV file: table is not rectangular."
  else
  (detect_csv_version csv).bind fun version =>
  let entry_of := if version = 1 then parse_delay_table_entry_csv_v1
                  else parse_delay_table_entry_csv_v2
  (allRes (csv.map entry_of)).bind fun entries =>
  match entries.get? 1 with
  | none => .crash "TypeError: cannot read frac_delay of undefined"
  | some e1 =>
    .ok { entries := entries, format_version := version,
          num_fracs := e1.frac_delay.length }

/-! ### Compare -/

/-- Element-wise difference of two rows (`to - from`). Every numeric field is
subtracted, including `num_pointings` and `_reserved`. A fractional delay
missing from `from` would be NaN in JS; it is modelled as 0 and never
reached by a claim (the rows of one table all have equal length). -/
def diff_entry (f t : DelayTableV2Entry) : DelayTableV2Entry :=
  { rf_input := t.rf_input,
    ws_delay := t.ws_delay - f.ws_delay,
    initial_delay := t.initial_delay - f.initial_delay,
    delta_delay := t.delta_delay - f.delta_delay,
    delta_delta_delay := t.delta_delta_delay - f.delta_delta_delay,
    num_pointings := t.num_pointings - f.num_pointings,
    start_total_delay := t.start_total_delay - f.start_total_delay,
    middle_total_delay := t.middle_total_delay - f.middle_total_delay,
    end_total_delay := t.end_total_delay - f.end_total_delay,
    _reserved := t._reserved - f._reserved,
    frac_delay := t.frac_delay.enum.map
      (fun p => p.2 - ((f.frac_delay.get? p.1).getD 0)) }

/-- First row index at which the two tables disagree on `rf_input`. -/
def first_rf_mismatch (f t : List DelayTableV2Entry) : Option Nat :=
  (f.zip t).findIdx? (fun p => p.1.rf_input ≠ p.2.rf_input)

/-- `compare_delay_tables`. -/
def compare_delay_tables (dtFrom dtTo : DelayTableV2) : Res DelayTableV2 :=
  if dtFrom.entries.length ≠ dtTo.entries.length then
    .err "Delay table length mismatch."
  else
  match first_rf_mismatch dtFrom.entries dtTo.entries with
  | some _ => .err "Source ID mismatch in delay tables."
  | none =>
    .ok { dtTo with entries := List.zipWith diff_entry dtFrom.entries dtTo.entries }

/-! ## Header serialisation (serialise_header) -/

/-- The `HEADER_FIELDS` registry: ordering index of each known key. -/
def HEADER_FIELDS : List (String × Nat) :=
  [("HDR_SIZE", 0), ("POPULATED", 1), ("OBS_ID", 2), ("SUBOBS_ID", 3),
   ("MODE", 4), ("UTC_START", 5), ("OBS_OFFSET", 6), ("NBIT", 7),
   ("NPOL", 8), ("NTIMESAMPLES", 9), ("NINPUTS", 10), ("NINPUTS_XGPU", 11),
   ("APPLY_PATH_WEIGHTS", 12), ("APPLY_PATH_DELAYS", 13),
   ("INT_TIME_MSEC", 14), ("FSCRUNCH_FACTOR", 15), ("APPLY_VIS_WEIGHTS", 16),
   ("TRANSFER_SIZE", 17), ("PROJ_ID", 18), ("EXPOSURE_SECS", 19),
   ("COARSE_CHANNEL", 20), ("CORR_COARSE_CHANNEL", 21),
   ("SECS_PER_SUBOBS", 22), ("UNIXTIME", 23), ("UNIXTIME_MSEC", 24),
   ("FINE_CHAN_WIDTH_HZ", 25), ("NFINE_CHAN", 26), ("BANDWIDTH_HZ", 27),
   ("SAMPLE_RATE", 28), ("MC_IP", 29), ("MC_PORT", 30), ("MC_SRC_IP", 31),
   ("MWAX_U2S_VER", 32)]

/-- Registered ordering index of a key; unknown keys take 9999. -/
def headerFieldIndex (k : String) : Nat :=
  match HEADER_FIELDS.lookup k with
  | some i => i
  | none => 9999

/-- `padEnd(n, NUL)`: append NUL characters up to `n` characters (all header
text is ASCII, so characters and bytes coincide). -/
def padNul (n : Nat) (s : String) : String :=
  s ++ String.mk (List.replicate (n - s.length) (Char.ofNat 0))

/-- `serialise_header`. The header object is an insertion-ordered list of
key/value pairs (values already stringified). Entries are decorated with the
registered index and sorted with the comparator on the index alone.
`Array.prototype.sort` is required to be stable, so the model is the stable
sort by the comparator's order; `List.insertionSort` is stable, and any two
stable sorts for the same total preorder agree. -/
def serialise_header (header : List (String × String)) (header_length : Nat) :
    String :=
  let trips := header.map (fun kv => (kv.1, kv.2, headerFieldIndex kv.1))
  let sorted := trips.insertionSort (fun a b => a.2.2 ≤ b.2.2)
  padNul header_length
    (String.intercalate "\n" (sorted.map (fun t => t.1 ++ " " ++ t.2.1)) ++ "\n")

/-- Alphabetical (character-code lexicographic) order on strings. -/
def strAlphaLe (a b : String) : Bool :=
  go a.toList b.toList
where
  go : List Char → List Char → Bool
  | [], _ => true
  | _ :: _, [] => false
  | c :: cs, d :: ds =>
    if c.toNat < d.toNat then true
    else if c.toNat = d.toNat then go cs ds
    else false

/-- The ordering the claim asserts: registered index, then alphabetical key
order among equal indices. Written from the claim for comparison. -/
def serialise_header_claim (header : List (String × String))
    (header_length : Nat) : String :=
  let sorted := header.insertionSort (fun a b =>
    headerFieldIndex a.1 < headerFieldIndex b.1 ∨
    (headerFieldIndex a.1 = headerFieldIndex b.1 ∧ strAlphaLe a.1 b.1))
  padNul header_length
    (String.intercalate "\n" (sorted.map (fun kv => kv.1 ++ " " ++ kv.2)) ++ "\n")

/-- What the amended claim says: stable sort of the entries by registered
index alone (insertion order among ties). -/
def serialise_header_stable (header : List (String × String))
    (header_length : Nat) : String :=
  let sorted := header.insertionSort (fun a b =>
    headerFieldIndex a.1 ≤ headerFieldIndex b.1)
  padNul header_length
    (String.intercalate "\n" (sorted.map (fun kv => kv.1 ++ " " ++ kv.2)) ++ "\n")

/-! ## Metadata (load_subfile derivation) -/

/-- The metadata fields of an open subfile used by the engines (all are
natural numbers; the derivations are exact for a valid header). -/
structure Metadata where
  num_sources : Nat
  sample_rate : Nat
  secs_per_subobs : Nat
  samples_per_line : Nat
  samples_per_packet : Nat
  margin_packets : Nat
  fft_per_block : Nat
  mwax_sub_version : Nat
  margin_samples : Nat
  blocks_per_sub : Nat
  blocks_per_sec : Nat
  sub_line_size : Nat
  num_frac_delays : Nat
  udp_per_rf_per_sub : Nat
  frac_delay_size : Nat
  block_length : Nat
  dt_entry_min_size : Nat
  dt_length : Nat
  data_offset : Nat
  data_length : Nat
  udpmap_offset : Nat
  udpmap_length : Nat
  margin_offset : Nat
  margin_length : Nat
  header_offset : Nat
  header_length : Nat
  dt_offset : Nat
deriving DecidableEq, Repr

/-- The header values `load_subfile` consumes (only the numeric fields the
metadata derivation uses; the ASCII header parse itself is elided).
`MARGIN_SAMPLES` and `MWAX_SUB_VER` are optional, with the source's
fallbacks. -/
structure HeaderVals where
  NINPUTS : Nat
  SAMPLE_RATE : Nat
  SECS_PER_SUBOBS : Nat
  NTIMESAMPLES : Nat
  MARGIN_SAMPLES : Option Nat
  MWAX_SUB_VER : Option Nat
deriving DecidableEq, Repr

/-- The metadata derivation of `load_subfile` (divisions are exact on a valid
header, where Nat division agrees with the JS arithmetic). -/
def derive_meta (hv : HeaderVals) : Metadata :=
  let num_sources := hv.NINPUTS
  let sample_rate := hv.SAMPLE_RATE
  let secs_per_subobs := hv.SECS_PER_SUBOBS
  let samples_per_line := hv.NTIMESAMPLES
  let samples_per_packet := 2048
  let margin_packets := 2
  let margin_samples := hv.MARGIN_SAMPLES.getD (margin_packets * samples_per_packet)
  let mwax_sub_version := hv.MWAX_SUB_VER.getD 1
  let blocks_per_sub := sample_rate * secs_per_subobs / samples_per_line
  let sub_line_size := samples_per_line * 2
  let num_frac_delays := blocks_per_sub * 10
  let udp_per_rf_per_sub := sample_rate * secs_per_subobs / samples_per_packet
  let frac_delay_size := if mwax_sub_version = 1 then 2 else 4
  let block_length := sub_line_size * num_sources
  let dt_entry_min_size := if mwax_sub_version = 1 then 20 else 56
  let dt_length := num_sources * (num_frac_delays * frac_delay_size + dt_entry_min_size)
  let udpmap_offset := 4096 + dt_length
  let udpmap_length := num_sources * udp_per_rf_per_sub / 8
  { num_sources, sample_rate, secs_per_subobs, samples_per_line,
    samples_per_packet, margin_packets, fft_per_block := 10, mwax_sub_version,
    margin_samples, blocks_per_sub,
    blocks_per_sec := blocks_per_sub / secs_per_subobs,
    sub_line_size, num_frac_delays, udp_per_rf_per_sub, frac_delay_size,
    block_length, dt_entry_min_size, dt_length,
    data_offset := 4096 + block_length,
    data_length := block_length * blocks_per_sub,
    udpmap_offset, udpmap_length,
    margin_offset := udpmap_offset + udpmap_length,
    margin_length := num_sources * margin_samples * 2 * 2,
    header_offset := 0, header_length := 4096, dt_offset := 4096 }

/-! ## Typed-array helpers shared by the engines -/

/-- JS `TypedArray.subarray(a, b)`: negative indices count from the end,
then both are clamped to the array. -/
def jsSubarray {α : Type} (l : List α) (a b : Int) : List α :=
  let len : Int := l.length
  let clamp : Int → Nat := fun x =>
    (if x < 0 then max 0 (len + x) else min x len).toNat
  (l.take (clamp b)).drop (clamp a)

/-- JS `target.set(src, off)`, functionally. When the write would leave the
target, JS throws; the model truncates instead — every use below stays in
bounds. The target's length is always preserved. -/
def listWrite {α : Type} (target : List α) (off : Nat) (src : List α) : List α :=
  target.take off ++ src.take (target.length - off) ++ target.drop (off + src.length)

/-! ## Repoint engine (repoint.ts time_shift) -/

/-- `getMargin` (repoint.ts): head or tail margin samples of one source, as
16-bit samples. -/
def getMargin (id : Nat) (data : List Nat) (m : Metadata) (getHead : Bool) :
    List Nat :=
  let sz := m.margin_samples
  let offset := if getHead then 0 else sz
  (data.drop (id * sz * 2 + offset)).take sz

/-- One source's line of `time_shift`: compute the output line (body plus
head or tail region) and write it into the output block at the line offset.
Sample values are 16-bit, as in the source's Uint16Array view. A `null`
previous/next block dereference is a crash. -/
def time_shift_source (blockId : Nat) (srcBlock : List Nat)
    (srcPrev srcNext : Option (List Nat)) (current target : List Int)
    (marginData : List Nat) (m : Metadata) (dstBlock : List Nat) (i : Nat) :
    Res (List Nat) :=
  let SPL := m.samples_per_line
  let MS : Int := m.margin_samples
  let srcLine := (srcBlock.drop (i * SPL)).take SPL
  let dstLine := (dstBlock.drop (i * SPL)).take SPL
  let M := (current.get? i).getD 0
  let N := (target.get? i).getD 0 - M
  let headLength := (max 0 N).toNat
  let tailLength := (min 0 N).natAbs
  let bodyLength := SPL - headLength - tailLength
  let srcBody := (srcLine.drop tailLength).take bodyLength
  let line1 := listWrite dstLine headLength srcBody
  (if headLength > 0 then
    (if blockId > 1 then
      match srcPrev with
      | none => (Res.crash "TypeError" : Res (List Nat))
      | some pb =>
        let prevLine := (pb.drop (i * SPL)).take SPL
        Res.ok (jsSubarray prevLine (-(headLength : Int)) prevLine.length)
     else
      let headMargin := getMargin i marginData m true
      Res.ok (jsSubarray headMargin (MS / 2 - N - M - 1) (MS / 2 - M - 1))
    ).bind fun srcHead => Res.ok (listWrite line1 0 srcHead)
   else if tailLength > 0 then
    (if (blockId : Int) < (m.blocks_per_sub : Int) - 1 then
      match srcNext with
      | none => (Res.crash "TypeError" : Res (List Nat))
      | some nb =>
        let nextLine := (nb.drop (i * SPL)).take SPL
        Res.ok (nextLine.take tailLength)
     else
      let tailMargin := getMargin i marginData m false
      Res.ok (jsSubarray tailMargin (MS / 2 - M + 1) (MS / 2 - N - M + 1))
    ).bind fun srcTail => Res.ok (listWrite line1 (SPL - tailLength) srcTail)
   else Res.ok line1
  ).bind fun lineOut => Res.ok (listWrite dstBlock (i * SPL) lineOut)

/-- The per-source loop of `time_shift`. -/
def time_shift_go (blockId : Nat) (srcBlock : List Nat)
    (srcPrev srcNext : Option (List Nat)) (current target : List Int)
    (marginData : List Nat) (m : Metadata) :
    List Nat → List Nat → Res (List Nat)
  | dst, [] => .ok dst
  | dst, i :: rest =>
    (time_shift_source blockId srcBlock srcPrev srcNext current target
        marginData m dst i).bind fun dst2 =>
    time_shift_go blockId srcBlock srcPrev srcNext current target
        marginData m dst2 rest

/-- `time_shift` (repoint.ts): write a time-shifted copy of one data block.
`current` and `target` are the whole-sample delays in source order; the
number of sources processed is `current.length`, as in the source. -/
def time_shift (blockId : Nat) (srcBlock : List Nat)
    (srcPrev srcNext : Option (List Nat)) (dstBlock : List Nat)
    (current target : List Int) (marginData : List Nat) (m : Metadata) :
    Res (List Nat) :=
  time_shift_go blockId srcBlock srcPrev srcNext current target marginData m
    dstBlock (List.range current.length)

/-! ## Resample engine (src/resample.ts) -/

/-- A per-sample transform: previous samples, the current complex sample,
next samples, and the absolute time in seconds. Blocks are Int8 data; the
returned pair is a JS number pair, rounded and wrapped by the caller. -/
def TransformFn : Type :=
  List Int → Int × Int → List Int → ℚ → ℚ × ℚ

/-- `Math.round`: round half toward positive infinity. -/
def jsRound (q : ℚ) : Int := ⌊q + 1 / 2⌋

/-- Int8Array store conversion: wrap modulo 256 into -128..127. -/
def toInt8 (i : Int) : Int :=
  let u := (i.emod 256).toNat
  if u < 128 then (u : Int) else (u : Int) - 256

/-- `get_line` (resample.ts): one source's line of Int8 data. -/
def get_line (id : Nat) (blockData : List Int) (m : Metadata) : List Int :=
  (blockData.drop (id * m.samples_per_line * 2)).take (m.samples_per_line * 2)

/-- `get_margin` (resample.ts): head or tail margin bytes of one source,
optionally without the overlap half. -/
def get_margin (id : Nat) (data : List Int) (m : Metadata)
    (getHead includeOverlap : Bool) : List Int :=
  let lineSz := m.margin_samples * 2
  let position := id * lineSz * 2 + (if getHead then 0 else lineSz) +
    (if !getHead ∧ !includeOverlap then lineSz / 2 else 0)
  let length := if includeOverlap then lineSz else lineSz / 2
  (data.drop position).take length

/-- The neighbourhood window before the current sample (`prevSamples`). -/
def prev_samples (region sampleIdx : Nat) (curLine prevLine : List Int) :
    List Int :=
  if region = 0 then []
  else if region ≤ sampleIdx then
    jsSubarray curLine (((sampleIdx : Int) - region) * 2) (sampleIdx * 2)
  else if sampleIdx = 0 then
    jsSubarray prevLine (-(region : Int) * 2) prevLine.length
  else
    jsSubarray prevLine (((sampleIdx : Int) - region) * 2) prevLine.length ++
    jsSubarray curLine 0 (sampleIdx * 2)

/-- The neighbourhood window after the current sample (`nextSamples`). -/
def next_samples (region sampleIdx lineSz : Nat) (curLine nextLine : List Int) :
    List Int :=
  if region = 0 then []
  else if region ≤ lineSz - sampleIdx then
    jsSubarray curLine ((sampleIdx + 1) * 2) ((sampleIdx + region + 1) * 2)
  else if sampleIdx = lineSz - 1 then
    jsSubarray nextLine 0 (region * 2)
  else
    jsSubarray curLine ((sampleIdx + 1) * 2) curLine.length ++
    jsSubarray nextLine 0 (((region : Int) - (lineSz - sampleIdx - 1)) * 2)

/-- One transformed output line: every sample of the line is passed through
the transform with its window and absolute time, rounded, and wrapped. -/
def resample_line (fn : TransformFn) (region blockNum : Nat)
    (curLine prevLine nextLine : List Int) (m : Metadata) : List Int :=
  let lineSz := m.samples_per_line
  let blockTime : ℚ := ((blockNum : ℚ) - 1) / (m.blocks_per_sec : ℚ)
  (List.range lineSz).flatMap (fun sampleIdx =>
    let sample : Int × Int :=
      ((curLine.get? (sampleIdx * 2)).getD 0,
       (curLine.get? (sampleIdx * 2 + 1)).getD 0)
    let sampleTime := blockTime + (sampleIdx : ℚ) / (m.sample_rate : ℚ)
    let p := prev_samples region sampleIdx curLine prevLine
    let n := next_samples region sampleIdx lineSz curLine nextLine
    let out := fn p sample n sampleTime
    [toInt8 (jsRound out.1), toInt8 (jsRound out.2)])

/-- `resample_block`: sources with a registered transform get the
transformed line; all other sources have their input line copied to the
output verbatim. The previous/next line defaults to the head/tail margin
(overlap half excluded) at the subfile edges. -/
def resample_block (fns : Nat → Option TransformFn) (region blockNum : Nat)
    (srcBlock : List Int) (srcPrev srcNext : Option (List Int))
    (dstBlock : List Int) (marginData : List Int) (m : Metadata) : List Int :=
  (List.range m.num_sources).foldl (fun dst rfSourceId =>
    let curLine := get_line rfSourceId srcBlock m
    match fns rfSourceId with
    | none => listWrite dst (rfSourceId * m.samples_per_line * 2) curLine
    | some fn =>
      let prevLine := match srcPrev with
        | some pb => get_line rfSourceId pb m
        | none => get_margin rfSourceId marginData m true false
      let nextLine := match srcNext with
        | some nb => get_line rfSourceId nb m
        | none => get_margin rfSourceId marginData m false false
      listWrite dst (rfSourceId * m.samples_per_line * 2)
        (resample_line fn region blockNum curLine prevLine nextLine m))
    dstBlock

/-- The line written for one source by `resample_block`: the transformed
line when a transform is registered, the input line otherwise. -/
def resample_content (fns : Nat → Option TransformFn) (region blockNum : Nat)
    (srcBlock : List Int) (srcPrev srcNext : Option (List Int))
    (marginData : List Int) (m : Metadata) (j : Nat) : List Int :=
  match fns j with
  | none => get_line j srcBlock m
  | some fn =>
      resample_line fn region blockNum (get_line j srcBlock m)
        (match srcPrev with
         | some pb => get_line j pb m
         | none => get_margin j marginData m true false)
        (match srcNext with
         | some nb => get_line j nb m
         | none => get_margin j marginData m false false) m

/-- Concrete metadata for the resample witness: 2 sources, 1 sample per
line. -/
def c9_meta : Metadata :=
  derive_meta { NINPUTS := 2, SAMPLE_RATE := 2, SECS_PER_SUBOBS := 1,
                NTIMESAMPLES := 1, MARGIN_SAMPLES := some 2,
                MWAX_SUB_VER := some 1 }

/-- A transform set registering only source 0. -/
def c9_fns : Nat → Option TransformFn :=
  fun j => if j = 0 then some (fun _ s _ _ => ((s.1 : ℚ), (s.2 : ℚ))) else none

/-! ## Subfile writer (write_subfile, passthrough mode) -/

/-- A file as a byte store: a size and a byte function (only indices below
`size` are meaningful). -/
structure ByteFile where
  size : Nat
  byte : Nat → Nat

/-- `read_block` (reader.ts): block `num` starts at
`header_length + num * block_length`. -/
def read_block_bytes (S : ByteFile) (m : Metadata) (num : Nat) : Nat → Nat :=
  fun o => S.byte (m.header_length + num * m.block_length + o)

/-- The preamble buffer built by `write_subfile`: a zeroed
`header_length + block_length` buffer with the header, delay table, packet
map and margin sections copied in at their metadata offsets. In passthrough
mode each section's content is the corresponding section of the input
subfile. The four section ranges are pairwise disjoint for derived
metadata, so the if-chain order is immaterial. -/
def passthrough_preamble (S : ByteFile) (m : Metadata) : Nat → Nat := fun i =>
  if i < m.header_length then S.byte i
  else if m.dt_offset ≤ i ∧ i < m.dt_offset + m.dt_length then S.byte i
  else if m.udpmap_offset ≤ i ∧ i < m.udpmap_offset + m.udpmap_length then S.byte i
  else if m.margin_offset ≤ i ∧ i < m.margin_offset + m.margin_length then S.byte i
  else 0

/-- `write_subfile` with a passthrough output descriptor: the preamble is
written first, then blocks `1 .. blocks_per_sub` are read and rewritten
verbatim, in order. -/
def write_subfile_passthrough (S : ByteFile) (m : Metadata) : ByteFile :=
  { size := (m.header_length + m.block_length) + m.blocks_per_sub * m.block_length,
    byte := fun i =>
      if i < m.header_length + m.block_length then passthrough_preamble S m i
      else
        let j := i - (m.header_length + m.block_length)
        read_block_bytes S m (1 + j / m.block_length) (j % m.block_length) }

/-- Validity of a subfile against its derived metadata: the size derivations
are exact, the file has exactly the derived size, and the preamble sections
fit inside one block (the packing invariant the writer relies on). -/
def valid_subfile (m : Metadata) (S : ByteFile) : Prop :=
  0 < m.samples_per_line ∧ 0 < m.num_sources ∧ 0 < m.secs_per_subobs ∧
  1 ≤ m.blocks_per_sub ∧
  m.samples_per_line ∣ m.sample_rate * m.secs_per_subobs ∧
  m.samples_per_packet ∣ m.sample_rate * m.secs_per_subobs ∧
  8 ∣ m.num_sources * m.udp_per_rf_per_sub ∧
  m.secs_per_subobs ∣ m.blocks_per_sub ∧
  m.margin_offset + m.margin_length ≤ m.header_length + m.block_length ∧
  S.size = m.data_offset + m.data_length

instance (m : Metadata) (S : ByteFile) : Decidable (valid_subfile m S) := by
  unfold valid_subfile; infer_instance

/-- Well-formedness of a v2 entry for the on-disk format: the fractional
delay trajectory has the table's length, the 16-bit fields are exactly
representable in their on-disk integer types, and every float field is
exactly representable in its on-disk float type. -/
def wf_v2_entry (nf : Nat) (e : DelayTableV2Entry) : Prop :=
  e.frac_delay.length = nf ∧
  ((jsToUint 16 e.rf_input : Nat) : ℚ) = e.rf_input ∧
  ((toSigned 16 (jsToUint 16 e.ws_delay) : Int) : ℚ) = e.ws_delay ∧
  ((jsToUint 16 e.num_pointings : Nat) : ℚ) = e.num_pointings ∧
  ((jsToUint 16 e._reserved : Nat) : ℚ) = e._reserved ∧
  f64_exact e.initial_delay ∧ f64_exact e.delta_delay ∧
  f64_exact e.delta_delta_delay ∧ f64_exact e.start_total_delay ∧
  f64_exact e.middle_total_delay ∧ f64_exact e.end_total_delay ∧
  ∀ q ∈ e.frac_delay, f32_exact q

/-- Well-formedness of a v2 table. -/
def wf_v2_table (t : DelayTableV2) : Prop :=
  t.format_version = 2 ∧ ∀ e ∈ t.entries, wf_v2_entry t.num_fracs e

/-- Byte-identity of two files. -/
def fileEq (A B : ByteFile) : Prop :=
  A.size = B.size ∧ ∀ i < A.size, A.byte i = B.byte i

/-! ## Concrete instances used by the claims -/

/-- Metadata of a micro subfile: one source, 4 samples per line, 3 blocks,
8 margin samples (the spec's S1 geometry restricted to source 0). -/
def c1_meta : Metadata :=
  derive_meta { NINPUTS := 1, SAMPLE_RATE := 12, SECS_PER_SUBOBS := 1,
                NTIMESAMPLES := 4, MARGIN_SAMPLES := some 8,
                MWAX_SUB_VER := some 1 }

/-- Margin data for the single source: head samples 0..7, tail samples
12..19. -/
def c1_margin : List Nat := [0,1,2,3,4,5,6,7,12,13,14,15,16,17,18,19]

/-- A fully valid v1 binary delay table: 2 rows, 10 fractional delays
(row length 40, 80 bytes). Every row has num_pointings 1, initial_delay 5
agreeing with the first frac, all fracs 5, and zeroed padding. -/
def c4_v1row (rf : ℚ) : List Nat :=
  setUint16 rf ++ setInt16 0 ++ setInt32 5 ++ setInt32 0 ++ setInt32 0 ++
  setUint16 1 ++ (List.replicate 10 (setInt16 5)).flatten ++ [0, 0]

def c4_buf : List Nat := c4_v1row 1 ++ c4_v1row 2

/-- A delay-table row with distinctive values (v2 in-memory form). -/
def c5_entry : DelayTableV2Entry :=
  { rf_input := 7, ws_delay := 3, initial_delay := 10, delta_delay := 2,
    delta_delta_delay := 0, start_total_delay := 0, middle_total_delay := 0,
    end_total_delay := 0, num_pointings := 1, _reserved := 0,
    frac_delay := [1/2] }

def c5_table : DelayTableV2 :=
  { format_version := 2, num_fracs := 1, entries := [c5_entry] }

/-- A one-row CSV in which both column 5 and column 8 are "1". -/
def c6_csv : List (List String) := [["0","1","2","3","4","1","6","7","1"]]

/-- A well-formed v2 table (every field representable in its on-disk type)
whose `num_pointings` is 2. -/
def c7_bad_entry : DelayTableV2Entry :=
  { rf_input := 1, ws_delay := 0, initial_delay := 0, delta_delay := 0,
    delta_delta_delay := 0, start_total_delay := 0, middle_total_delay := 0,
    end_total_delay := 0, num_pointings := 2, _reserved := 0,
    frac_delay := [0] }

def c7_bad_table : DelayTableV2 :=
  { format_version := 2, num_fracs := 1, entries := [c7_bad_entry] }

/-- A well-formed v2 table that the full round trip should preserve. -/
def c7_good_entry : DelayTableV2Entry :=
  { rf_input := 9, ws_delay := -2, initial_delay := 1/2, delta_delay := -3,
    delta_delta_delay := 1/4, start_total_delay := 5, middle_total_delay := 0,
    end_total_delay := -1/8, num_pointings := 1, _reserved := 0,
    frac_delay := [1/2, -2] }

def c7_good_table : DelayTableV2 :=
  { format_version := 2, num_fracs := 2, entries := [c7_good_entry] }

/-- Header with two unknown keys whose insertion order is not alphabetical. -/
def c8_header : List (String × String) := [("ZZZ", "1"), ("AAA", "2")]

/-- A single-row v1 CSV (column 5 is "1"). -/
def c10_csv_one : String := "0,0,0,0,0,1,5"

/-- A two-row v1 CSV. -/
def c10_csv_two : String := "0,0,0,0,0,1,5\n1,0,0,0,0,1,5"

/-- The table `parse_delay_table_csv` yields for `c10_csv_two`. -/
def c10_table_two : DelayTableV2 :=
  { format_version := 1, num_fracs := 1, entries :=
    [{ rf_input := 0, ws_delay := 0, initial_delay := 0, delta_delay := 0,
       delta_delta_delay := 0, start_total_delay := 0, middle_total_delay := 0,
       end_total_delay := 0, num_pointings := 1, _reserved := 0,
       frac_delay := [1/200] },
     { rf_input := 1, ws_delay := 0, initial_delay := 0, delta_delay := 0,
       delta_delta_delay := 0, start_total_delay := 0, middle_total_delay := 0,
       end_total_delay := 0, num_pointings := 1, _reserved := 0,
       frac_delay := [1/200] }] }

/-- Header values of a micro subfile for the passthrough round trip:
1 source, 2048 samples/line, 8 blocks, 8 margin samples. -/
def c2_hv : HeaderVals :=
  { NINPUTS := 1, SAMPLE_RATE := 2048, SECS_PER_SUBOBS := 8,
    NTIMESAMPLES := 2048, MARGIN_SAMPLES := some 8, MWAX_SUB_VER := some 1 }

/-- A valid subfile for `c2_hv` (40960 bytes) whose only nonzero byte sits
at offset 4309 — the first byte of the unused remainder of block 0, after
the margin section ends and before the data section begins. -/
def c2_S : ByteFile :=
  { size := 40960, byte := fun i => if i = 4309 then 5 else 0 }

/-- A valid all-zero subfile for `c2_hv`. -/
def c2_S0 : ByteFile := { size := 40960, byte := fun _ => 0 }

/-- A 22-byte v1 row (one fractional delay): rf_input 7, ws_delay -1,
initial_delay 100, num_pointings 1, the int16 at byte 18 is 100 and the
int16 at byte 20 is 77. -/
def c3_row : List Nat :=
  [7,0, 255,255, 100,0,0,0, 0,0,0,0, 0,0,0,0, 1,0, 100,0, 77,0]

/-- A v1 in-memory entry with a single fractional delay of 1 sample. -/
def c3_entry : DelayTableV2Entry :=
  { rf_input := 3, ws_delay := 0, initial_delay := 0, delta_delay := 0,
    delta_delta_delay := 0, start_total_delay := 0, middle_total_delay := 0,
    end_total_delay := 0, num_pointings := 1, _reserved := 0,
    frac_delay := [1] }

/-! ## Theorems -/

/- The Batteries rational operations are `@[irreducible]`, which blocks the
elaborator's evaluation inside `decide`; the kernel is unaffected. Restore
the default reducibility for this file so concrete program runs can be
decided. -/
attribute [local semireducible] Rat.add Rat.sub Rat.mul Rat.inv

/-! ### Byte-level toolbox -/

theorem natToBytesLE_length (len n : Nat) : (natToBytesLE len n).length = len := by
  induction len generalizing n with
  | zero => rfl
  | succ k ih => simp [natToBytesLE, ih]

theorem setUint16_length (q : ℚ) : (setUint16 q).length = 2 := by
  simp [setUint16, natToBytesLE_length]

theorem setInt16_length (q : ℚ) : (setInt16 q).length = 2 := by
  simp [setInt16, natToBytesLE_length]

theorem setInt32_length (q : ℚ) : (setInt32 q).length = 4 := by
  simp [setInt32, natToBytesLE_length]

theorem encodeF64_length (q : ℚ) : (encodeF64 q).length = 8 := by
  simp [encodeF64, natToBytesLE_length]

theorem encodeF32_length (q : ℚ) : (encodeF32 q).length = 4 := by
  simp [encodeF32, natToBytesLE_length]

theorem bytesToNatLE_natToBytesLE (len n : Nat) :
    bytesToNatLE (natToBytesLE len n) = n % 256 ^ len := by
  induction len generalizing n with
  | zero => simp [natToBytesLE, bytesToNatLE, Nat.mod_one]
  | succ k ih =>
    have hstep : bytesToNatLE (natToBytesLE (k + 1) n) =
        n % 256 + 256 * bytesToNatLE (natToBytesLE k (n / 256)) := rfl
    rw [hstep, ih, pow_succ, Nat.mul_comm (256 ^ k) 256, Nat.mod_mul]

theorem jsToUint_lt (w : Nat) (q : ℚ) : jsToUint w q < 2 ^ w := by
  have h : jsToUint w q = ((ratTrunc q) % (2 ^ w : Int)).toNat := rfl
  rw [h]
  have hpos : (0 : Int) < (2 ^ w : Int) := by positivity
  have hlt := Int.emod_lt_of_pos (ratTrunc q) hpos
  have hnn := Int.emod_nonneg (ratTrunc q) (ne_of_gt hpos)
  have hcast : (2 ^ w : Int) = ((2 ^ w : Nat) : Int) := by push_cast; ring
  omega

theorem dvBytes_prefix {a : List Nat} (rest : List Nat) {len : Nat}
    (ha : a.length = len) : dvBytes (a ++ rest) 0 len = some a := by
  subst ha
  unfold dvBytes
  rw [if_pos (by simp)]
  simp [List.take_left]

theorem dvBytes_shift (a rest : List Nat) (off len : Nat) :
    dvBytes (a ++ rest) (a.length + off) len = dvBytes rest off len := by
  unfold dvBytes
  have hdrop : (a ++ rest).drop (a.length + off) = rest.drop off := by
    rw [List.drop_append_eq_append_drop]
    simp
  rw [hdrop]
  have : (a.length + off + len ≤ (a ++ rest).length) ↔ (off + len ≤ rest.length) := by
    simp; omega
  by_cases h : off + len ≤ rest.length
  · rw [if_pos (this.mpr h), if_pos h]
  · rw [if_neg (fun hc => h (this.mp hc)), if_neg h]

theorem dvBytes_flatten_at {l : List (List Nat)} {c : Nat}
    (hc : ∀ y ∈ l, y.length = c) :
    ∀ {i : Nat} {x : List Nat} (post : List Nat), l.get? i = some x →
      dvBytes (l.flatten ++ post) (c * i) c = some x := by
  induction l with
  | nil => intro i x post h; simp at h
  | cons y ys ih =>
    intro i x post h
    cases i with
    | zero =>
      rw [List.get?_cons_zero, Option.some_inj] at h
      subst h
      rw [Nat.mul_zero, List.flatten_cons, List.append_assoc]
      exact dvBytes_prefix _ (hc y (by simp))
    | succ j =>
      rw [List.get?_cons_succ] at h
      have hy : y.length = c := hc y (by simp)
      have hoff : c * (j + 1) = y.length + c * j := by rw [hy]; ring
      rw [List.flatten_cons, List.append_assoc, hoff, dvBytes_shift]
      exact ih (fun z hz => hc z (by simp [hz])) _ h

theorem allRes_map_ok {α β : Type} (l : List α) (f : α → Res β) (g : α → β)
    (h : ∀ x ∈ l, f x = .ok (g x)) : allRes (l.map f) = .ok (l.map g) := by
  induction l with
  | nil => rfl
  | cons a t ih =>
    simp only [List.map_cons, allRes]
    rw [h a (by simp), Res.bind, ih (fun x hx => h x (by simp [hx])), Res.bind]

theorem map_range_getD {α : Type} (l : List α) (d : α) :
    (List.range l.length).map (fun i => l.getD i d) = l := by
  induction l with
  | nil => rfl
  | cons a t ih =>
    rw [List.length_cons, List.range_succ_eq_map, List.map_cons, List.map_map]
    have hh : ((fun i => (a :: t).getD i d) ∘ Nat.succ) = fun i => t.getD i d :=
      funext (fun i => by simp)
    rw [hh, ih]
    simp

theorem dvBytes_isSome (buf : List Nat) (off len : Nat)
    (h : off + len ≤ buf.length) :
    dvBytes buf off len = some ((buf.drop off).take len) := by
  unfold dvBytes
  rw [if_pos h]

theorem flatten_map_length {α : Type} (l : List α) (g : α → List Nat) (c : Nat)
    (h : ∀ x, (g x).length = c) : ((l.map g).flatten).length = c * l.length := by
  induction l with
  | nil => simp
  | cons a t ih => simp [h, ih]; ring

theorem v1_fixed_length (e : DelayTableV2Entry) : (v1_fixed e).length = 18 := by
  simp [v1_fixed, setUint16_length, setInt16_length, setInt32_length]

theorem v2_fixed_length (e : DelayTableV2Entry) : (v2_fixed e).length = 56 := by
  simp [v2_fixed, setUint16_length, setInt16_length, encodeF64_length]

theorem v1_row_bytes_length (e : DelayTableV2Entry) (vl : Nat)
    (h : 18 + 2 * e.frac_delay.length ≤ vl) :
    (v1_row_bytes e vl).length = vl := by
  have hf := flatten_map_length e.frac_delay (fun x => setInt16 (x * 1000)) 2
    (fun x => setInt16_length _)
  simp [v1_row_bytes, v1_fixed_length, hf]
  omega

theorem v2_row_bytes_length (e : DelayTableV2Entry) (vl : Nat)
    (h : 56 + 4 * e.frac_delay.length ≤ vl) :
    (v2_row_bytes e vl).length = vl := by
  have hf := flatten_map_length e.frac_delay encodeF32 4 (fun x => encodeF32_length _)
  simp [v2_row_bytes, v2_fixed_length, hf]
  omega

/-- C1: the claim says that for a negative relative shift the tail of every
block `b < blocks_per_sub` is sourced from the next block's first samples,
margin data being used only for `b = blocks_per_sub`. The code instead
compares `blockId < blocks_per_sub - 1`, so the second-to-last block also
sources its tail from the margin. Here `blocks_per_sub = 3`, `b = 2`,
`M = 1`, `N = -3`: the next block's line is `[12,13,14,15]`, so the claim
predicts output `[11,12,13,14]`, but `time_shift` writes the tail-margin
samples 16,17,18, producing `[11,16,17,18]`. -/
theorem C1_second_last_block_tail_from_margin :
    time_shift 2 [8,9,10,11] (some [4,5,6,7]) (some [12,13,14,15])
        [0,0,0,0] [1] [-2] c1_margin c1_meta = Res.ok [11,16,17,18] ∧
    ([11,16,17,18] : List Nat) ≠ [11,12,13,14] := by
  constructor
  · decide
  · decide

/-- C4: evaluation of binary structure inference at a fully valid v1 table
(2 rows, 10 fractional delays, all rows with num_pointings 1, reserved
padding 0, fracs in range). The claim says inference validates each row's
reserved positions and returns the first satisfying candidate — here
`(1, 2, 10)`. Instead, the v1 reserved offset is computed as
`row_length - (-2) = row_length + 2`, a position outside the row; at
candidate `row_count = 1` the check reads two bytes past the end of the
buffer and the RangeError escapes, so inference crashes on every v1 table
whose first row has num_pointings 1. -/
theorem C4_v1_inference_crashes :
    detect_binary_version c4_buf = Res.ok 1 ∧
    infer_binary_structure c4_buf = Res.crash "RangeError" ∧
    parse_delay_table_binary c4_buf = Res.crash "RangeError" := by
  refine ⟨by decide, by decide, by decide⟩


/-- C5: evaluation of `compare_delay_tables` at a pair of equal one-row
tables whose `num_pointings` is 1. The claim (and the function's own doc
comment) says the result's `num_pointings` is left at 1; the code computes
the element-wise difference, which is 0 here. All other fields are the
expected `to - from` differences. -/
theorem C5_compare_num_pointings_is_difference :
    compare_delay_tables c5_table c5_table =
      Res.ok { format_version := 2, num_fracs := 1, entries :=
        [{ rf_input := 7, ws_delay := 0, initial_delay := 0, delta_delay := 0,
           delta_delta_delay := 0, start_total_delay := 0,
           middle_total_delay := 0, end_total_delay := 0,
           num_pointings := 0, _reserved := 0, frac_delay := [0] }] } ∧
    (0 : ℚ) ≠ 1 := by
  refine ⟨by decide, by decide⟩

/-- C6 counterexample: a CSV in which both column 5 and column 8 are "1" in
every row is not rejected as ambiguous — the column-5 test fires first and
detection returns version 1. -/
theorem C6_counterexample_both_ones_detects_v1 :
    detect_csv_version c6_csv = Res.ok 1 := by decide

/-- C7 counterexample: a well-formed v2 table (every field representable in
its on-disk type, frac lengths matching `num_fracs`) with
`num_pointings = 2` serialises fine, but `parse_delay_table_binary` without
explicit structure arguments runs the version heuristics, which require
`num_pointings = 1`; the parse fails instead of returning the table. -/
theorem C7_counterexample_roundtrip_fails_via_inference :
    (serialise_delay_table c7_bad_table).bind
        (fun b => parse_delay_table_binary b) =
      Res.err "Failed to detect delay table binary version: did not match any known structure." := by
  decide

/-- C8 counterexample: two unknown keys (equal registered index 9999)
inserted in non-alphabetical order. The comparator returns 0 for equal
indices and `Array.prototype.sort` is stable, so the emitted lines keep
insertion order `ZZZ, AAA`, not the alphabetical order the claim
states. -/
theorem C8_counterexample_ties_not_alphabetical :
    serialise_header c8_header 20 = "ZZZ 1\nAAA 2\n\x00\x00\x00\x00\x00\x00\x00\x00" ∧
    serialise_header c8_header 20 ≠ serialise_header_claim c8_header 20 := by
  refine ⟨by decide, by decide⟩

/-- C6 amended: CSV version detection returns 1 exactly when every row's
column 5 is "1" (regardless of column 8), returns 2 exactly when not every
row's column 5 is "1" but every row's column 8 is, and fails otherwise. A
CSV with both columns all "1" is therefore detected as version 1, not
rejected. -/
theorem C6_amended_detection_characterisation (csv : List (List String)) :
    (detect_csv_version csv = Res.ok 1 ↔ ∀ row ∈ csv, row.get? 5 = some "1") ∧
    (detect_csv_version csv = Res.ok 2 ↔
      ¬ (∀ row ∈ csv, row.get? 5 = some "1") ∧
      ∀ row ∈ csv, row.get? 8 = some "1") ∧
    (¬ (∀ row ∈ csv, row.get? 5 = some "1") →
     ¬ (∀ row ∈ csv, row.get? 8 = some "1") →
      detect_csv_version csv =
        Res.err "Bad CSV file: unable to detect version - could not find a num_pointings column containing all ones.") := by
  have H5 : (csv.all fun row => row.get? 5 = some "1") = true ↔
      ∀ row ∈ csv, row.get? 5 = some "1" := by simp [List.all_eq_true]
  have H8 : (csv.all fun row => row.get? 8 = some "1") = true ↔
      ∀ row ∈ csv, row.get? 8 = some "1" := by simp [List.all_eq_true]
  by_cases h5 : ∀ row ∈ csv, row.get? 5 = some "1" <;>
    by_cases h8 : ∀ row ∈ csv, row.get? 8 = some "1" <;>
    simp only [detect_csv_version, H5.mpr, h5, h8, if_pos, if_neg,
      H5, H8, iff_true, iff_false, not_true, not_false_iff] <;>
    simp_all [detect_csv_version, H5, H8]

/-- C6 amended, witness: a CSV in which neither column is all ones makes
detection fail. -/
theorem C6_amended_witness :
    detect_csv_version [["0","1","2","3","4","0","6","7","0"]] =
      Res.err "Bad CSV file: unable to detect version - could not find a num_pointings column containing all ones." :=
  (C6_amended_detection_characterisation _).2.2 (by decide) (by decide)

/-- C8 amended: `serialise_header` emits one KEY VALUE line per entry,
ordered by the registered field index with ties keeping their original
entry order (stable sort; unknown keys take index 9999 and sort last), and
pads with NUL to `header_length`. Formally: the output equals the
stable-sort formulation, the sorted entry list is a permutation of the
header, and it is sorted by registered index. -/
theorem C8_amended_stable_order (header : List (String × String)) (n : Nat) :
    serialise_header header n = serialise_header_stable header n ∧
    (header.insertionSort fun a b =>
      headerFieldIndex a.1 ≤ headerFieldIndex b.1).Perm header ∧
    List.Sorted (fun a b => headerFieldIndex a.1 ≤ headerFieldIndex b.1)
      (header.insertionSort fun a b =>
        headerFieldIndex a.1 ≤ headerFieldIndex b.1) := by
  refine ⟨?_, List.perm_insertionSort _ _, ?_⟩
  · unfold serialise_header serialise_header_stable
    dsimp only
    have hmap := List.map_insertionSort
      (fun a b : String × String => headerFieldIndex a.1 ≤ headerFieldIndex b.1)
      (fun a b : String × String × Nat => a.2.2 ≤ b.2.2)
      (fun kv : String × String => (kv.1, kv.2, headerFieldIndex kv.1))
      header (fun a _ b _ => Iff.rfl)
    rw [← hmap, List.map_map]
    rfl
  · haveI : IsTotal (String × String)
        (fun a b => headerFieldIndex a.1 ≤ headerFieldIndex b.1) :=
      ⟨fun a b => Nat.le_total _ _⟩
    haveI : IsTrans (String × String)
        (fun a b => headerFieldIndex a.1 ≤ headerFieldIndex b.1) :=
      ⟨fun _ _ _ hab hbc => Nat.le_trans hab hbc⟩
    exact List.sorted_insertionSort _ _

/-- C2 counterexample: a valid subfile whose only nonzero byte lies in the
unused remainder of block 0 (after the margin section, before the data
section). The passthrough writer zero-fills that region, so the output is
not byte-identical to the input. -/
theorem C2_counterexample_slack_byte_zeroed :
    valid_subfile (derive_meta c2_hv) c2_S ∧
    ¬ fileEq (write_subfile_passthrough c2_S (derive_meta c2_hv)) c2_S := by
  constructor
  · decide
  · intro h
    have h4309 := h.2 4309 (by decide)
    revert h4309
    decide

/-- C2 amended: loading a valid subfile and writing it back through the
passthrough path reproduces every byte of the header, delay-table, packet
map, margin and data sections, zero-fills the unused remainder of block 0
(between the end of the margin section and the start of the data section),
and therefore produces a byte-identical copy exactly when that unused
region is zero in the input. -/
theorem C2_amended_passthrough (hv : HeaderVals) (S : ByteFile)
    (hval : valid_subfile (derive_meta hv) S) :
    (write_subfile_passthrough S (derive_meta hv)).size = S.size ∧
    (∀ i, i < (derive_meta hv).margin_offset + (derive_meta hv).margin_length →
      (write_subfile_passthrough S (derive_meta hv)).byte i = S.byte i) ∧
    (∀ i, (derive_meta hv).header_length + (derive_meta hv).block_length ≤ i →
      (write_subfile_passthrough S (derive_meta hv)).byte i = S.byte i) ∧
    (∀ i, (derive_meta hv).margin_offset + (derive_meta hv).margin_length ≤ i →
      i < (derive_meta hv).header_length + (derive_meta hv).block_length →
      (write_subfile_passthrough S (derive_meta hv)).byte i = 0) ∧
    ((∀ i, (derive_meta hv).margin_offset + (derive_meta hv).margin_length ≤ i →
      i < (derive_meta hv).header_length + (derive_meta hv).block_length →
      S.byte i = 0) → fileEq (write_subfile_passthrough S (derive_meta hv)) S) := by
  obtain ⟨hspl, hns, hsecs, hbps, hdvd1, hdvd2, hdvd3, hdvd4, hpack, hsize⟩ := hval
  have hdt : (derive_meta hv).dt_offset = (derive_meta hv).header_length := rfl
  have hud : (derive_meta hv).udpmap_offset =
      (derive_meta hv).dt_offset + (derive_meta hv).dt_length := rfl
  have hmo : (derive_meta hv).margin_offset =
      (derive_meta hv).udpmap_offset + (derive_meta hv).udpmap_length := rfl
  have hdo : (derive_meta hv).data_offset =
      (derive_meta hv).header_length + (derive_meta hv).block_length := rfl
  have hdl : (derive_meta hv).data_length =
      (derive_meta hv).block_length * (derive_meta hv).blocks_per_sub := rfl
  have hsz : (write_subfile_passthrough S (derive_meta hv)).size = S.size := by
    show (derive_meta hv).header_length + (derive_meta hv).block_length +
      (derive_meta hv).blocks_per_sub * (derive_meta hv).block_length = S.size
    rw [hsize, hdo, hdl]
    have := Nat.mul_comm (derive_meta hv).blocks_per_sub (derive_meta hv).block_length
    omega
  have hpre : ∀ i, i < (derive_meta hv).margin_offset + (derive_meta hv).margin_length →
      (write_subfile_passthrough S (derive_meta hv)).byte i = S.byte i := by
    intro i hi
    show (if i < _ + _ then passthrough_preamble S (derive_meta hv) i else _) = _
    rw [if_pos (by omega)]
    unfold passthrough_preamble
    split_ifs with h1 h2 h3 h4
    · rfl
    · rfl
    · rfl
    · rfl
    · omega
  have hdata : ∀ i, (derive_meta hv).header_length + (derive_meta hv).block_length ≤ i →
      (write_subfile_passthrough S (derive_meta hv)).byte i = S.byte i := by
    intro i hi
    show (if i < _ + _ then _ else read_block_bytes S (derive_meta hv) _ _) = _
    rw [if_neg (by omega)]
    unfold read_block_bytes
    congr 1
    set hl := (derive_meta hv).header_length with hhl
    set bl := (derive_meta hv).block_length with hbl
    set j := i - (hl + bl) with hj
    have hdm := Nat.div_add_mod j bl
    have hcm : (j / bl) * bl = bl * (j / bl) := Nat.mul_comm _ _
    have : (1 + j / bl) * bl = bl + (j / bl) * bl := by ring
    omega
  have hslack : ∀ i, (derive_meta hv).margin_offset + (derive_meta hv).margin_length ≤ i →
      i < (derive_meta hv).header_length + (derive_meta hv).block_length →
      (write_subfile_passthrough S (derive_meta hv)).byte i = 0 := by
    intro i hi1 hi2
    show (if i < _ + _ then passthrough_preamble S (derive_meta hv) i else _) = _
    rw [if_pos (by omega)]
    unfold passthrough_preamble
    split_ifs with h1 h2 h3 h4
    · omega
    · omega
    · omega
    · omega
    · rfl
  refine ⟨hsz, hpre, hdata, hslack, fun hz => ⟨hsz, fun i hilt => ?_⟩⟩
  rcases Nat.lt_or_ge i ((derive_meta hv).margin_offset + (derive_meta hv).margin_length)
    with hc | hc
  · exact hpre i hc
  rcases Nat.lt_or_ge i ((derive_meta hv).header_length + (derive_meta hv).block_length)
    with hc2 | hc2
  · rw [hslack i hc hc2, hz i hc hc2]
  · exact hdata i hc2

/-- C2 amended, witness: the all-zero valid subfile round-trips to a
byte-identical copy. -/
theorem C2_amended_witness :
    fileEq (write_subfile_passthrough c2_S0 (derive_meta c2_hv)) c2_S0 :=
  (C2_amended_passthrough c2_hv c2_S0 (by decide)).2.2.2.2 (fun _ _ _ => rfl)

/-- A list with a value at index 1 has at least two elements. -/
theorem length_ge_two_of_get_one {α : Type} {l : List α} {x : α}
    (h : l.get? 1 = some x) : 2 ≤ l.length := by
  cases l with
  | nil => simp at h
  | cons a t =>
    cases t with
    | nil => simp at h
    | cons b t2 => simp [Nat.succ_le_succ, List.length]

/-- C10: `parse_delay_table_csv` reads the returned table's `num_fracs`
from the entry at index 1; a successful parse therefore requires at least
two rows, and on a single-row CSV the index-1 access is an access on
`undefined` and the parse crashes instead of returning a one-entry
table. -/
theorem C10_num_fracs_from_second_row :
    (∀ (s : String) (t : DelayTableV2),
      parse_delay_table_csv s = Res.ok t → 2 ≤ t.entries.length) ∧
    parse_delay_table_csv c10_csv_one =
      Res.crash "TypeError: cannot read frac_delay of undefined" := by
  constructor
  · intro s t h
    unfold parse_delay_table_csv at h
    dsimp only at h
    split at h
    · exact absurd h (by simp)
    rcases hdet : detect_csv_version (parse_csv s) with v | r | msg <;>
      rw [hdet] at h <;> simp only [Res.bind] at h
    · rcases hall : allRes ((parse_csv s).map
          (if v = 1 then parse_delay_table_entry_csv_v1
           else parse_delay_table_entry_csv_v2)) with es | r | msg <;>
        rw [hall] at h <;> simp only [Res.bind] at h
      · rcases hget : es.get? 1 with _ | e1 <;> rw [hget] at h
        · exact absurd h (by simp)
        · rw [Res.ok.injEq] at h
          subst h
          exact length_ge_two_of_get_one hget
      · exact absurd h (by simp)
      · exact absurd h (by simp)
    · exact absurd h (by simp)
    · exact absurd h (by simp)
  · decide

/-- C10, witness: a two-row CSV parses successfully and the theorem's bound
is met with equality. -/
theorem C10_witness : 2 ≤ c10_table_two.entries.length :=
  C10_num_fracs_from_second_row.1 c10_csv_two c10_table_two (by decide)

/-- C3 counterexample: in a concrete 22-byte v1 row the parser's fractional
delay comes from the int16 at byte 18 (value 100, giving 0.1 samples), not
from the int16 at byte 20 (value 77), and the serialiser writes a
1.0-sample fractional delay as the int16 1000 at bytes 18..19, leaving
bytes 20..21 as padding zeros. -/
theorem C3_counterexample_frac_at_20 :
    parse_delay_table_entry_binary_v1 c3_row = Res.ok
      { rf_input := 7, ws_delay := -1, initial_delay := 100, delta_delay := 0,
        delta_delta_delay := 0, start_total_delay := 0, middle_total_delay := 0,
        end_total_delay := 0, num_pointings := 1, _reserved := 0,
        frac_delay := [1/10] } ∧
    getInt16 c3_row 20 = some 77 ∧
    ((77 : ℚ) / 1000 ≠ 1 / 10) ∧
    serialise_delay_table_entry_binary_v1 c3_entry 22 =
      Res.ok [3,0, 0,0, 0,0,0,0, 0,0,0,0, 0,0,0,0, 1,0, 232,3, 0,0] := by
  refine ⟨by decide, by decide, by decide, by decide⟩

/-- C3 amended: in a v1 binary row of length `20 + 2 * num_fracs`,
frac_delay[i] is stored as a little-endian int16 at byte offset `18 + 2i`
(two padding bytes close the row): the serialiser writes each fractional
delay there, and the parser reads each fractional delay from there. -/
theorem C3_amended_frac_offset_18 :
    (∀ (e : DelayTableV2Entry) (b : List Nat),
      serialise_delay_table_entry_binary_v1 e (20 + 2 * e.frac_delay.length) =
        Res.ok b →
      b.length = 20 + 2 * e.frac_delay.length ∧
      ∀ (i : Nat) (x : ℚ), e.frac_delay.get? i = some x →
        dvBytes b (18 + 2 * i) 2 = some (setInt16 (x * 1000))) ∧
    (∀ (row : List Nat) (f : Nat) (ent : DelayTableV2Entry),
      row.length = 20 + 2 * f →
      parse_delay_table_entry_binary_v1 row = Res.ok ent →
      ent.frac_delay.length = f ∧
      ∀ i, i < f → ent.frac_delay.get? i =
        (getInt16 row (18 + 2 * i)).map (fun v : Int => (v : ℚ) / 1000)) := by
  constructor
  · intro e b hok
    unfold serialise_delay_table_entry_binary_v1 at hok
    rw [if_neg (by omega)] at hok
    rw [Res.ok.injEq] at hok
    subst hok
    refine ⟨v1_row_bytes_length e _ (by omega), fun i x hx => ?_⟩
    have hmapx : (e.frac_delay.map (fun x => setInt16 (x * 1000))).get? i =
        some (setInt16 (x * 1000)) := by
      rw [List.get?_map, hx]; rfl
    have hpos : 18 + 2 * i = (v1_fixed e).length + 2 * i := by
      rw [v1_fixed_length]
    unfold v1_row_bytes
    rw [hpos, dvBytes_shift]
    exact dvBytes_flatten_at (fun y hy => by
      obtain ⟨z, _, hz⟩ := List.mem_map.mp hy
      rw [← hz]; exact setInt16_length _) _ hmapx
  · intro row f ent hlen hok
    have hread : ∀ off, off + 2 ≤ row.length →
        getInt16 row off = some (toSigned 16 (bytesToNatLE ((row.drop off).take 2))) := by
      intro off hoff
      unfold getInt16
      rw [dvBytes_isSome row off 2 hoff]
      rfl
    have hnf : (row.length - 20) / 2 = f := by omega
    unfold parse_delay_table_entry_binary_v1 at hok
    rw [hread 2 (by omega)] at hok
    rw [hread 16 (by omega)] at hok
    rw [show getUint16 row 0 = some (bytesToNatLE ((row.drop 0).take 2)) from by
      unfold getUint16; rw [dvBytes_isSome row 0 2 (by omega)]; rfl] at hok
    rw [show getInt32 row 4 = some (toSigned 32 (bytesToNatLE ((row.drop 4).take 4))) from by
      unfold getInt32; rw [dvBytes_isSome row 4 4 (by omega)]; rfl] at hok
    rw [show getInt32 row 8 = some (toSigned 32 (bytesToNatLE ((row.drop 8).take 4))) from by
      unfold getInt32; rw [dvBytes_isSome row 8 4 (by omega)]; rfl] at hok
    rw [show getInt32 row 12 = some (toSigned 32 (bytesToNatLE ((row.drop 12).take 4))) from by
      unfold getInt32; rw [dvBytes_isSome row 12 4 (by omega)]; rfl] at hok
    rw [if_neg (by omega)] at hok
    simp only [orCrash, Res.bind] at hok
    rw [hnf] at hok
    rw [allRes_map_ok (List.range f) _
      (fun i => ((toSigned 16 (bytesToNatLE ((row.drop (18 + 2 * i)).take 2)) : Int) : ℚ) / 1000)
      (fun i hi => by
        have hib : i < f := List.mem_range.mp hi
        rw [hread (18 + 2 * i) (by omega)])] at hok
    simp only [Res.bind] at hok
    rw [Res.ok.injEq] at hok
    subst hok
    constructor
    · simp
    · intro i hi
      rw [hread (18 + 2 * i) (by omega)]
      simp only [List.get?_map, List.get?_range hi, Option.map_some]
      rfl

theorem decodeBitsF_mod (mb eb x : Nat) :
    decodeBitsF mb eb (x % 2 ^ (mb + eb + 1)) = decodeBitsF mb eb x := by
  have hman : x % 2 ^ (mb + eb + 1) % 2 ^ mb = x % 2 ^ mb :=
    Nat.mod_mod_of_dvd x (pow_dvd_pow 2 (by omega))
  have hexp : x % 2 ^ (mb + eb + 1) / 2 ^ mb % 2 ^ eb = x / 2 ^ mb % 2 ^ eb := by
    have h1 : (2 : Nat) ^ (mb + eb + 1) = 2 ^ mb * 2 ^ (eb + 1) := by
      rw [← pow_add]
      congr 1
    rw [h1, Nat.mod_mul_right_div_self]
    exact Nat.mod_mod_of_dvd _ (pow_dvd_pow 2 (by omega))
  have hsgn : x % 2 ^ (mb + eb + 1) / 2 ^ (mb + eb) % 2 = x / 2 ^ (mb + eb) % 2 := by
    have h1 : (2 : Nat) ^ (mb + eb + 1) = 2 ^ (mb + eb) * 2 := by rw [pow_succ]
    rw [h1, Nat.mod_mul_right_div_self]
    exact Nat.mod_mod_of_dvd _ dvd_rfl
  unfold decodeBitsF
  rw [hman, hexp, hsgn]

/-- Parsing the serialised bytes of a well-formed v2 entry recovers the
entry exactly. -/
theorem parse_v2_row_roundtrip (nf : Nat) (e : DelayTableV2Entry)
    (hwf : wf_v2_entry nf e) :
    parse_delay_table_entry_binary_v2 (v2_row_bytes e (56 + 4 * nf)) =
      Res.ok e := by
  obtain ⟨hlen, hrf, hws, hnp, hrsv, hfa, hfb, hfc, hfd, hfe, hff, hfr⟩ := hwf
  have hrow : (v2_row_bytes e (56 + 4 * nf)).length = 56 + 4 * nf :=
    v2_row_bytes_length e _ (by omega)
  have hchunk2 : ∀ q : ℚ, bytesToNatLE (natToBytesLE 2 (jsToUint 16 q)) =
      jsToUint 16 q := by
    intro q
    rw [bytesToNatLE_natToBytesLE]
    exact Nat.mod_eq_of_lt (lt_of_lt_of_le (jsToUint_lt 16 q) (by norm_num))
  have hfield : ∀ (off len : Nat) (chunk : List Nat), off + len ≤ 56 + 4 * nf →
      ((v2_row_bytes e (56 + 4 * nf)).drop off).take len = chunk →
      dvBytes (v2_row_bytes e (56 + 4 * nf)) off len = some chunk := by
    intro off len chunk hb hc
    rw [dvBytes_isSome _ _ _ (by omega), hc]
  have hdec64 : ∀ q : ℚ, f64_exact q →
      decodeBitsF 52 11 (bytesToNatLE (encodeF64 q)) = some q := by
    intro q hq
    rw [encodeF64, bytesToNatLE_natToBytesLE,
      show (256 : Nat) ^ 8 = 2 ^ (52 + 11 + 1) from by norm_num, decodeBitsF_mod]
    exact hq
  have hdec32 : ∀ q : ℚ, f32_exact q →
      decodeBitsF 23 8 (bytesToNatLE (encodeF32 q)) = some q := by
    intro q hq
    rw [encodeF32, bytesToNatLE_natToBytesLE,
      show (256 : Nat) ^ 4 = 2 ^ (23 + 8 + 1) from by norm_num, decodeBitsF_mod]
    exact hq
  have hu16 : ∀ (off : Nat) (q : ℚ), off + 2 ≤ 56 + 4 * nf →
      ((v2_row_bytes e (56 + 4 * nf)).drop off).take 2 = setUint16 q →
      getUint16 (v2_row_bytes e (56 + 4 * nf)) off = some (jsToUint 16 q) := by
    intro off q hb hc
    unfold getUint16
    rw [hfield off 2 _ hb hc]
    simp only [Option.map_some']
    rw [setUint16, hchunk2]
  have hi16 : ∀ (off : Nat) (q : ℚ), off + 2 ≤ 56 + 4 * nf →
      ((v2_row_bytes e (56 + 4 * nf)).drop off).take 2 = setInt16 q →
      getInt16 (v2_row_bytes e (56 + 4 * nf)) off =
        some (toSigned 16 (jsToUint 16 q)) := by
    intro off q hb hc
    unfold getInt16
    rw [hfield off 2 _ hb hc]
    simp only [Option.map_some']
    rw [setInt16, hchunk2]
  have hg64 : ∀ (off : Nat) (q : ℚ), f64_exact q → off + 8 ≤ 56 + 4 * nf →
      ((v2_row_bytes e (56 + 4 * nf)).drop off).take 8 = encodeF64 q →
      getFloat64 (v2_row_bytes e (56 + 4 * nf)) off = some (some q) := by
    intro off q hq hb hc
    unfold getFloat64
    rw [hfield off 8 _ hb hc]
    simp only [Option.map_some']
    rw [hdec64 q hq]
  unfold parse_delay_table_entry_binary_v2
  rw [if_neg (by omega)]
  rw [hu16 0 e.rf_input (by omega) (by
    simp [v2_row_bytes, v2_fixed, List.append_assoc, List.drop_append_eq_append_drop,
      List.take_append_eq_append_take, setUint16_length, setInt16_length,
      encodeF64_length, List.drop_eq_nil_of_le, List.take_of_length_le])]
  rw [hi16 2 e.ws_delay (by omega) (by
    simp [v2_row_bytes, v2_fixed, List.append_assoc, List.drop_append_eq_append_drop,
      List.take_append_eq_append_take, setUint16_length, setInt16_length,
      encodeF64_length, List.drop_eq_nil_of_le, List.take_of_length_le])]
  rw [hg64 4 e.initial_delay hfa (by omega) (by
    simp [v2_row_bytes, v2_fixed, List.append_assoc, List.drop_append_eq_append_drop,
      List.take_append_eq_append_take, setUint16_length, setInt16_length,
      encodeF64_length, List.drop_eq_nil_of_le, List.take_of_length_le])]
  rw [hg64 12 e.delta_delay hfb (by omega) (by
    simp [v2_row_bytes, v2_fixed, List.append_assoc, List.drop_append_eq_append_drop,
      List.take_append_eq_append_take, setUint16_length, setInt16_length,
      encodeF64_length, List.drop_eq_nil_of_le, List.take_of_length_le])]
  rw [hg64 20 e.delta_delta_delay hfc (by omega) (by
    simp [v2_row_bytes, v2_fixed, List.append_assoc, List.drop_append_eq_append_drop,
      List.take_append_eq_append_take, setUint16_length, setInt16_length,
      encodeF64_length, List.drop_eq_nil_of_le, List.take_of_length_le])]
  rw [hg64 28 e.start_total_delay hfd (by omega) (by
    simp [v2_row_bytes, v2_fixed, List.append_assoc, List.drop_append_eq_append_drop,
      List.take_append_eq_append_take, setUint16_length, setInt16_length,
      encodeF64_length, List.drop_eq_nil_of_le, List.take_of_length_le])]
  rw [hg64 36 e.middle_total_delay hfe (by omega) (by
    simp [v2_row_bytes, v2_fixed, List.append_assoc, List.drop_append_eq_append_drop,
      List.take_append_eq_append_take, setUint16_length, setInt16_length,
      encodeF64_length, List.drop_eq_nil_of_le, List.take_of_length_le])]
  rw [hg64 44 e.end_total_delay hff (by omega) (by
    simp [v2_row_bytes, v2_fixed, List.append_assoc, List.drop_append_eq_append_drop,
      List.take_append_eq_append_take, setUint16_length, setInt16_length,
      encodeF64_length, List.drop_eq_nil_of_le, List.take_of_length_le])]
  rw [hu16 52 e.num_pointings (by omega) (by
    simp [v2_row_bytes, v2_fixed, List.append_assoc, List.drop_append_eq_append_drop,
      List.take_append_eq_append_take, setUint16_length, setInt16_length,
      encodeF64_length, List.drop_eq_nil_of_le, List.take_of_length_le])]
  rw [hu16 54 e._reserved (by omega) (by
    simp [v2_row_bytes, v2_fixed, List.append_assoc, List.drop_append_eq_append_drop,
      List.take_append_eq_append_take, setUint16_length, setInt16_length,
      encodeF64_length, List.drop_eq_nil_of_le, List.take_of_length_le])]
  rw [if_neg (by omega)]
  simp only [orCrash, Res.bind]
  have hfrac : ∀ i, i < nf → getFloat32 (v2_row_bytes e (56 + 4 * nf)) (56 + 4 * i) =
      some (some (e.frac_delay.getD i e.rf_input)) := by
    intro i hi
    have hget : e.frac_delay.get? i = some (e.frac_delay.getD i e.rf_input) := by
      cases hx : e.frac_delay.get? i with
      | none =>
        exact absurd (List.get?_eq_none.mp hx) (by omega)
      | some y =>
        rw [List.getD_eq_getElem?_getD, ← List.get?_eq_getElem?, hx]
        rfl
    have hmapget : (e.frac_delay.map encodeF32).get? i =
        some (encodeF32 (e.frac_delay.getD i e.rf_input)) := by
      rw [List.get?_map, hget]
      rfl
    unfold getFloat32
    have hdvb : dvBytes (v2_row_bytes e (56 + 4 * nf)) (56 + 4 * i) 4 =
        some (encodeF32 (e.frac_delay.getD i e.rf_input)) := by
      unfold v2_row_bytes
      rw [show 56 + 4 * i = (v2_fixed e).length + 4 * i from by rw [v2_fixed_length],
        dvBytes_shift]
      exact dvBytes_flatten_at (fun y hy => by
        obtain ⟨z, _, hz⟩ := List.mem_map.mp hy
        rw [← hz]; exact encodeF32_length _) _ hmapget
    rw [hdvb]
    simp only [Option.map_some']
    exact congrArg some (hdec32 _ (hfr _ (List.get?_mem hget)))
  rw [show ((v2_row_bytes e (56 + 4 * nf)).length - 56) / 4 = nf from by omega]
  rw [allRes_map_ok (List.range nf) _ (fun i => e.frac_delay.getD i e.rf_input)
    (fun i hi => by rw [hfrac i (List.mem_range.mp hi)]; rfl)]
  simp only [Res.bind]
  rw [Res.ok.injEq]
  have hfl : (List.range nf).map (fun i => e.frac_delay.getD i e.rf_input) =
      e.frac_delay := by
    conv_rhs => rw [← map_range_getD e.frac_delay e.rf_input]
    rw [hlen]
  cases e with
  | mk rf ws init delta dd start mid fin np rsv fracs =>
    simp only [DelayTableV2Entry.mk.injEq]
    exact ⟨hrf, hws, rfl, rfl, rfl, rfl, rfl, rfl, hnp, hrsv, hfl⟩

theorem get?_getD_of_lt {α : Type} (l : List α) (d : α) {i : Nat}
    (h : i < l.length) : l.get? i = some (l.getD i d) := by
  cases hx : l.get? i with
  | none => exact absurd (List.get?_eq_none.mp hx) (by omega)
  | some y =>
    rw [List.getD_eq_getElem?_getD, ← List.get?_eq_getElem?, hx]
    rfl

theorem parse_rows_map (buf : List Nat) (rl : Nat)
    (pe : List Nat → Res DelayTableV2Entry) (g : Nat → DelayTableV2Entry) :
    ∀ idxs : List Nat,
      (∀ i ∈ idxs, ∃ rowbytes, dvBytes buf (i * rl) rl = some rowbytes ∧
        pe rowbytes = Res.ok (g i)) →
      parse_rows buf rl pe idxs = Res.ok (idxs.map g) := by
  intro idxs
  induction idxs with
  | nil => intro _; rfl
  | cons i rest ih =>
    intro h
    obtain ⟨rb, hdvb, hpe⟩ := h i (by simp)
    simp only [parse_rows, hdvb, orCrash, Res.bind, hpe,
      ih (fun j hj => h j (by simp [hj])), List.map_cons]

/-- C3 amended, witness: serialiser and parser both applied at concrete
inputs; the serialised frac of `c3_entry` sits at byte 18 and the parsed
frac of `c3_row` is the int16 at byte 18 over 1000. -/
theorem C3_amended_witness :
    dvBytes [3,0, 0,0, 0,0,0,0, 0,0,0,0, 0,0,0,0, 1,0, 232,3, 0,0] (18 + 2 * 0) 2 =
      some (setInt16 (1 * 1000)) ∧
    ([(1 : ℚ)/10] : List ℚ).get? 0 =
      (getInt16 c3_row (18 + 2 * 0)).map (fun v : Int => (v : ℚ) / 1000) := by
  constructor
  · exact ((C3_amended_frac_offset_18.1 c3_entry _ (by decide)).2 0 1 (by decide))
  · have h := (C3_amended_frac_offset_18.2 c3_row 1
      { rf_input := 7, ws_delay := -1, initial_delay := 100, delta_delay := 0,
        delta_delta_delay := 0, start_total_delay := 0, middle_total_delay := 0,
        end_total_delay := 0, num_pointings := 1, _reserved := 0,
        frac_delay := [1/10] } (by decide) (by decide)).2 0 (by decide)
    exact h

set_option maxHeartbeats 1000000
set_option maxRecDepth 10000
set_option exponentiation.threshold 2048

/-- C7 amended: for every well-formed v2 table, serialising and then
parsing with the structure given explicitly (version 2, the table's row
count and fractional-delay count) recovers the table exactly. -/
theorem C7_amended_explicit_roundtrip (t : DelayTableV2) (hwf : wf_v2_table t) :
    (serialise_delay_table t).bind
      (fun b => parse_delay_table_binary b 2 t.entries.length t.num_fracs) =
    Res.ok t := by
  obtain ⟨hv, hents⟩ := hwf
  have hser : serialise_delay_table t = Res.ok
      ((t.entries.map (fun e => v2_row_bytes e (56 + 4 * t.num_fracs))).flatten) := by
    unfold serialise_delay_table
    dsimp only
    rw [hv]
    norm_num
    rw [allRes_map_ok t.entries _
      (fun e => v2_row_bytes e (56 + 4 * t.num_fracs)) (fun e he => by
        unfold serialise_delay_table_entry_binary_v2
        rw [if_neg (by have := (hents e he).1; omega)])]
    rfl
  rw [hser]
  simp only [Res.bind]
  unfold parse_delay_table_binary
  rw [if_neg (by omega)]
  simp only [Res.bind]
  norm_num
  rw [if_neg (by omega)]
  rw [show ((56 : Int) + (t.num_fracs : Int) * 4).toNat = 56 + 4 * t.num_fracs from
    by omega]
  have hlenrow : ∀ y ∈ t.entries.map (fun e => v2_row_bytes e (56 + 4 * t.num_fracs)),
      y.length = 56 + 4 * t.num_fracs := by
    intro y hy
    obtain ⟨z, hz, hzy⟩ := List.mem_map.mp hy
    rw [← hzy]
    exact v2_row_bytes_length z _ (by have := (hents z hz).1; omega)
  rw [parse_rows_map _ _ _
    (fun i => t.entries.getD i ⟨0, 0, 0, 0, 0, 0, 0, 0, 0, 0, []⟩)
    (List.range t.entries.length) (fun i hi => by
      have hilt : i < t.entries.length := List.mem_range.mp hi
      have hget := get?_getD_of_lt t.entries ⟨0, 0, 0, 0, 0, 0, 0, 0, 0, 0, []⟩ hilt
      have hmem : t.entries.getD i ⟨0, 0, 0, 0, 0, 0, 0, 0, 0, 0, []⟩ ∈ t.entries :=
        List.get?_mem hget
      refine ⟨v2_row_bytes (t.entries.getD i ⟨0, 0, 0, 0, 0, 0, 0, 0, 0, 0, []⟩)
        (56 + 4 * t.num_fracs), ?_, ?_⟩
      · have hmapget : (t.entries.map
            (fun e => v2_row_bytes e (56 + 4 * t.num_fracs))).get? i =
            some (v2_row_bytes (t.entries.getD i ⟨0, 0, 0, 0, 0, 0, 0, 0, 0, 0, []⟩)
              (56 + 4 * t.num_fracs)) := by
          rw [List.get?_map, hget]
          rfl
        have hflat := dvBytes_flatten_at hlenrow ([] : List Nat) hmapget
        rw [List.append_nil] at hflat
        rw [Nat.mul_comm i (56 + 4 * t.num_fracs)]
        exact hflat
      · exact parse_v2_row_roundtrip t.num_fracs _ (hents _ hmem))]
  simp only [Res.bind]
  rw [map_range_getD t.entries ⟨0, 0, 0, 0, 0, 0, 0, 0, 0, 0, []⟩]
  cases t with
  | mk fv nf ents =>
    simp only at hv
    simp [hv]

/-- C7 amended, witness: the explicit-structure round trip applied to the
concrete table `c7_good_table`. -/
theorem C7_amended_witness :
    (serialise_delay_table c7_good_table).bind
      (fun b => parse_delay_table_binary b 2 c7_good_table.entries.length
        c7_good_table.num_fracs) = Res.ok c7_good_table :=
  C7_amended_explicit_roundtrip c7_good_table
    (by unfold wf_v2_table wf_v2_entry; decide)

set_option maxHeartbeats 200000
set_option maxRecDepth 512
set_option exponentiation.threshold 256

/-! ## Resample pass-through (C9) -/

theorem listWrite_eq_of_le {α : Type} (target : List α) (off : Nat)
    (src : List α) (h : off + src.length ≤ target.length) :
    listWrite target off src =
      target.take off ++ src ++ target.drop (off + src.length) := by
  unfold listWrite
  rw [List.take_of_length_le (show src.length ≤ target.length - off by omega)]

theorem listWrite_length_of_le {α : Type} (target : List α) (off : Nat)
    (src : List α) (h : off + src.length ≤ target.length) :
    (listWrite target off src).length = target.length := by
  rw [listWrite_eq_of_le target off src h]
  simp [List.length_append, List.length_take, List.length_drop]
  omega

theorem slice_listWrite_self {α : Type} (target : List α) (off : Nat)
    (src : List α) (h : off + src.length ≤ target.length) :
    ((listWrite target off src).drop off).take src.length = src := by
  rw [listWrite_eq_of_le target off src h, List.append_assoc,
    List.drop_left' (by simp [List.length_take]; omega),
    List.take_left' rfl]

theorem slice_listWrite_after {α : Type} (target : List α) (off2 : Nat)
    (src : List α) (off n : Nat) (h : off2 + src.length ≤ target.length)
    (hd : off + n ≤ off2) :
    ((listWrite target off2 src).drop off).take n = (target.drop off).take n := by
  have h1 : (listWrite target off2 src).take (off + n) = target.take (off + n) := by
    rw [listWrite_eq_of_le target off2 src h, List.append_assoc,
      List.take_append_of_le_length (by simp [List.length_take]; omega),
      List.take_take, Nat.min_eq_left (by omega)]
  calc ((listWrite target off2 src).drop off).take n
      = ((listWrite target off2 src).take (off + n)).drop off := by
        rw [List.drop_take]
        congr 1
        omega
    _ = (target.take (off + n)).drop off := by rw [h1]
    _ = (target.drop off).take n := by
        rw [List.drop_take]
        congr 1
        omega

theorem slice_listWrite_before {α : Type} (target : List α) (off2 : Nat)
    (src : List α) (off n : Nat) (h : off2 + src.length ≤ target.length)
    (hd : off2 + src.length ≤ off) :
    ((listWrite target off2 src).drop off).take n = (target.drop off).take n := by
  have h2 : (listWrite target off2 src).drop off = target.drop off := by
    rw [listWrite_eq_of_le target off2 src h,
      List.drop_append_eq_append_drop, List.drop_append_eq_append_drop,
      List.drop_eq_nil_of_le (by simp [List.length_take]; omega),
      List.drop_eq_nil_of_le (by simp [List.length_take]; omega)]
    simp only [List.nil_append]
    rw [List.drop_drop]
    congr 1
    simp [List.length_take]
    omega
  rw [h2]

theorem flatMap_const_length {α β : Type} (l : List α) (g : α → List β) (c : Nat)
    (h : ∀ x ∈ l, (g x).length = c) : (l.flatMap g).length = c * l.length := by
  induction l with
  | nil => simp
  | cons a t ih =>
    rw [List.flatMap_cons, List.length_append, h a (List.mem_cons_self a t),
      ih (fun x hx => h x (List.mem_cons_of_mem a hx)), List.length_cons]
    ring

theorem get_line_length (i : Nat) (b : List Int) (m : Metadata)
    (h : i * m.samples_per_line * 2 + m.samples_per_line * 2 ≤ b.length) :
    (get_line i b m).length = m.samples_per_line * 2 := by
  unfold get_line
  rw [List.length_take, List.length_drop]
  omega

theorem resample_line_length (fn : TransformFn) (region blockNum : Nat)
    (curLine prevLine nextLine : List Int) (m : Metadata) :
    (resample_line fn region blockNum curLine prevLine nextLine m).length =
      m.samples_per_line * 2 := by
  unfold resample_line
  rw [flatMap_const_length _ _ 2]
  · rw [List.length_range]
    ring
  · intro x hx
    rfl

theorem foldl_write_length {α : Type} (L : Nat) (w : Nat → List α) :
    ∀ (l : List Nat) (dst : List α), (∀ j ∈ l, (w j).length = L) →
      (∀ j ∈ l, (j + 1) * L ≤ dst.length) →
      (l.foldl (fun d j => listWrite d (j * L) (w j)) dst).length = dst.length := by
  intro l
  induction l with
  | nil => intro dst hw hb; rfl
  | cons a t ih =>
    intro dst hw hb
    rw [List.foldl_cons]
    have ha : a * L + (w a).length ≤ dst.length := by
      rw [hw a (List.mem_cons_self a t)]
      have := hb a (List.mem_cons_self a t)
      rw [Nat.succ_mul] at this
      omega
    have hlen := listWrite_length_of_le dst (a * L) (w a) ha
    rw [ih _ (fun j hj => hw j (List.mem_cons_of_mem a hj))
      (fun j hj => by rw [hlen]; exact hb j (List.mem_cons_of_mem a hj))]
    exact hlen

theorem foldl_write_untouched {α : Type} (L : Nat) (w : Nat → List α) :
    ∀ (l : List Nat) (dst : List α) (i : Nat),
      (∀ j ∈ l, (w j).length = L) → (∀ j ∈ l, (j + 1) * L ≤ dst.length) →
      i ∉ l →
      ((l.foldl (fun d j => listWrite d (j * L) (w j)) dst).drop (i * L)).take L
        = (dst.drop (i * L)).take L := by
  intro l
  induction l with
  | nil => intro dst i hw hb hni; rfl
  | cons a t ih =>
    intro dst i hw hb hni
    rw [List.foldl_cons]
    have ha : a * L + (w a).length ≤ dst.length := by
      rw [hw a (List.mem_cons_self a t)]
      have := hb a (List.mem_cons_self a t)
      rw [Nat.succ_mul] at this
      omega
    have hlen := listWrite_length_of_le dst (a * L) (w a) ha
    rw [ih _ _ (fun j hj => hw j (List.mem_cons_of_mem a hj))
      (fun j hj => by rw [hlen]; exact hb j (List.mem_cons_of_mem a hj))
      (fun hmem => hni (List.mem_cons_of_mem a hmem))]
    have hne : a ≠ i := fun he => hni (he ▸ List.mem_cons_self a t)
    rcases Nat.lt_or_ge a i with hlt | hge
    · apply slice_listWrite_before dst (a * L) (w a) (i * L) L ha
      rw [hw a (List.mem_cons_self a t)]
      calc a * L + L = (a + 1) * L := (Nat.succ_mul a L).symm
        _ ≤ i * L := Nat.mul_le_mul_right L hlt
    · have hlt2 : i < a := lt_of_le_of_ne hge (fun he => hne he.symm)
      apply slice_listWrite_after dst (a * L) (w a) (i * L) L ha
      calc i * L + L = (i + 1) * L := (Nat.succ_mul i L).symm
        _ ≤ a * L := Nat.mul_le_mul_right L hlt2

theorem foldl_write_slice {α : Type} (L : Nat) (w : Nat → List α) :
    ∀ (l : List Nat) (dst : List α) (i : Nat),
      (∀ j ∈ l, (w j).length = L) → (∀ j ∈ l, (j + 1) * L ≤ dst.length) →
      l.Nodup → i ∈ l →
      ((l.foldl (fun d j => listWrite d (j * L) (w j)) dst).drop (i * L)).take L
        = w i := by
  intro l
  induction l with
  | nil => intro dst i hw hb hnd hmem; exact absurd hmem (List.not_mem_nil i)
  | cons a t ih =>
    intro dst i hw hb hnd hmem
    rw [List.foldl_cons]
    have ha : a * L + (w a).length ≤ dst.length := by
      rw [hw a (List.mem_cons_self a t)]
      have := hb a (List.mem_cons_self a t)
      rw [Nat.succ_mul] at this
      omega
    have hlen := listWrite_length_of_le dst (a * L) (w a) ha
    by_cases hai : a = i
    · subst hai
      rw [foldl_write_untouched L w t _ a
        (fun j hj => hw j (List.mem_cons_of_mem a hj))
        (fun j hj => by rw [hlen]; exact hb j (List.mem_cons_of_mem a hj))
        ((List.nodup_cons.mp hnd).1)]
      have hs := slice_listWrite_self dst (a * L) (w a) ha
      rw [hw a (List.mem_cons_self a t)] at hs
      exact hs
    · have hmt : i ∈ t := by
        rcases List.mem_cons.mp hmem with he | ht
        · exact absurd he.symm hai
        · exact ht
      exact ih _ i (fun j hj => hw j (List.mem_cons_of_mem a hj))
        (fun j hj => by rw [hlen]; exact hb j (List.mem_cons_of_mem a hj))
        (List.nodup_cons.mp hnd).2 hmt

theorem resample_block_eq_foldl (fns : Nat → Option TransformFn)
    (region blockNum : Nat) (srcBlock : List Int)
    (srcPrev srcNext : Option (List Int)) (dstBlock : List Int)
    (marginData : List Int) (m : Metadata) :
    resample_block fns region blockNum srcBlock srcPrev srcNext dstBlock
        marginData m =
      (List.range m.num_sources).foldl
        (fun d j => listWrite d (j * (m.samples_per_line * 2))
          (resample_content fns region blockNum srcBlock srcPrev srcNext
            marginData m j)) dstBlock := by
  unfold resample_block
  apply List.foldl_ext
  intro d j hj
  unfold resample_content
  cases hfj : fns j with
  | none =>
    dsimp only
    congr 1
    ring
  | some fn =>
    dsimp only
    congr 1
    ring

/-- C9: in `resample_block`, every source index with no registered
transform function has its input line copied to the output byte-for-byte;
only sources with a transform are changed. -/
theorem C9_unregistered_source_passthrough (fns : Nat → Option TransformFn) (region blockNum : Nat)
    (srcBlock : List Int) (srcPrev srcNext : Option (List Int))
    (dstBlock : List Int) (marginData : List Int) (m : Metadata)
    (i : Nat) (hi : i < m.num_sources) (hf : fns i = none)
    (hsrc : m.num_sources * (m.samples_per_line * 2) ≤ srcBlock.length)
    (hdst : m.num_sources * (m.samples_per_line * 2) ≤ dstBlock.length) :
    get_line i (resample_block fns region blockNum srcBlock srcPrev srcNext
        dstBlock marginData m) m = get_line i srcBlock m := by
  have hw : ∀ j ∈ List.range m.num_sources,
      (resample_content fns region blockNum srcBlock srcPrev srcNext
        marginData m j).length = m.samples_per_line * 2 := by
    intro j hj
    have hjlt := List.mem_range.mp hj
    unfold resample_content
    cases hfj : fns j with
    | none =>
      dsimp only
      apply get_line_length
      have h1 : (j + 1) * (m.samples_per_line * 2) ≤
          m.num_sources * (m.samples_per_line * 2) :=
        Nat.mul_le_mul_right _ hjlt
      have h2 : (j + 1) * (m.samples_per_line * 2) =
          j * m.samples_per_line * 2 + m.samples_per_line * 2 := by ring
      omega
    | some fn =>
      dsimp only
      exact resample_line_length fn region blockNum _ _ _ m
  have hb : ∀ j ∈ List.range m.num_sources,
      (j + 1) * (m.samples_per_line * 2) ≤ dstBlock.length := by
    intro j hj
    have hjlt := List.mem_range.mp hj
    exact le_trans (Nat.mul_le_mul_right _ hjlt) hdst
  have key := foldl_write_slice (m.samples_per_line * 2)
    (resample_content fns region blockNum srcBlock srcPrev srcNext
      marginData m)
    (List.range m.num_sources) dstBlock i hw hb
    (List.nodup_range m.num_sources) (List.mem_range.mpr hi)
  rw [resample_block_eq_foldl]
  have hgoal : get_line i
      ((List.range m.num_sources).foldl
        (fun d j => listWrite d (j * (m.samples_per_line * 2))
          (resample_content fns region blockNum srcBlock srcPrev srcNext
            marginData m j)) dstBlock) m =
      resample_content fns region blockNum srcBlock srcPrev srcNext
        marginData m i := by
    unfold get_line
    rw [show i * m.samples_per_line * 2 = i * (m.samples_per_line * 2) from
      by ring]
    exact key
  rw [hgoal]
  unfold resample_content
  rw [hf]

/-- C9, witness: the pass-through equality at a concrete block with two
sources, a transform registered only for source 0, and source 1 queried. -/
theorem C9_witness :
    1 < c9_meta.num_sources ∧ c9_fns 1 = none ∧
    c9_meta.num_sources * (c9_meta.samples_per_line * 2) ≤
      ([1, 2, 3, 4] : List Int).length ∧
    c9_meta.num_sources * (c9_meta.samples_per_line * 2) ≤
      ([9, 9, 9, 9] : List Int).length ∧
    get_line 1 (resample_block c9_fns 0 1 [1, 2, 3, 4] none none
        [9, 9, 9, 9] [] c9_meta) c9_meta =
      get_line 1 [1, 2, 3, 4] c9_meta :=
  ⟨by decide, rfl, by decide, by decide,
    C9_unregistered_source_passthrough c9_fns 0 1 [1, 2, 3, 4] none none
      [9, 9, 9, 9] [] c9_meta 1 (by decide) rfl (by decide) (by decide)⟩

end Subtool
